import Mathlib

/-!
# DApp store view-model (`ui/viewmodel/dapps_store/dapps_store_view.cpp`)

A shallow embedding of `DappsStoreViewModel`: the manifest parser
(`parseAppManifest`), the placeholder expansion (`expandLocalUrl`,
`expandLocalFile`), the registry callback of `loadApps`, the local store lookup
(`loadLocalDapp`), the archive installer (`installFromBuffer`,
`installFromFile`), the publisher key (`getPublisherKey`), the argument string
of `addAppToStore` and the completion callbacks of `installApp`, `uploadApp`,
`addAppToStore` and `registerPublisher`.

Library code the view-model calls (nlohmann::json, Qt containers and strings,
QuaZip, the wallet's `GenerateAppID`) is not part of the repository.  JSON
values, `QVariant`, `QMap` and `QString::replace` are modelled by their
documented behaviour; the JSON text parser, the digest and the settings are
parameters collected in `Env`.
-/

namespace DappsStore

/-! ## nlohmann::json values -/

/-- A parsed `nlohmann::json` value.  All number kinds are one constructor: the
view-model only asks whether a value is a string, an object, an array or empty. -/
inductive Json where
  | null
  | bool (b : Bool)
  | num (n : Int)
  | str (s : String)
  | arr (xs : List Json)
  | obj (kvs : List (String × Json))

/-- The exceptions that can leave the code: `std::runtime_error` with its
message, and the two nlohmann exceptions, which derive from `std::exception`
but not from `std::runtime_error`. -/
inductive Exn where
  | runtime_error (what : String)
  | json_parse_error
  | json_type_error
  deriving DecidableEq, Repr

namespace Json

/-- Model of `basic_json::is_string`. -/
def is_string : Json → Bool
  | str _ => true
  | _ => false

/-- Model of `basic_json::is_object`. -/
def is_object : Json → Bool
  | obj _ => true
  | _ => false

/-- Model of `basic_json::is_array`. -/
def is_array : Json → Bool
  | arr _ => true
  | _ => false

/-- Model of `basic_json::empty`: `null` is empty, an array or object is empty
when it has no element, and every other value (strings included, whatever their
length) is not empty. -/
def empty : Json → Bool
  | null => true
  | arr xs => xs.isEmpty
  | obj kvs => kvs.isEmpty
  | _ => false

/-- Model of the non-const `basic_json::operator[](key)`: on an object the value
stored under `key`, or `null` when the key is missing (the library inserts a
`null` there); on `null` also `null`; on any other value a `type_error`. -/
def index (j : Json) (key : String) : Except Exn Json :=
  match j with
  | obj kvs => .ok ((kvs.lookup key).getD null)
  | null => .ok null
  | _ => .error .json_type_error

/-- Model of `basic_json::get<std::string>()`: the string, or a `type_error`
when the value is not a string. -/
def get_string : Json → Except Exn String
  | str s => .ok s
  | _ => .error .json_type_error

end Json

/-! ## Qt values -/

/-- The `QVariant` values the view-model stores: strings and booleans; `invalid`
is the default-constructed variant. -/
inductive QVariant where
  | invalid
  | bool (b : Bool)
  | str (s : String)
  deriving DecidableEq, Repr

/-- Model of `QVariant::toString` (and of `value<QString>()`). -/
def QVariant.toString : QVariant → String
  | .invalid => ""
  | .bool b => if b then "true" else "false"
  | .str s => s

/-- A `QMap<QString, QVariant>` as an association list with unique keys.  The
code never iterates over a map, so the key order of `QMap` is not modelled. -/
abbrev QMap := List (String × QVariant)

namespace QMap

/-- Model of `QMap::insert`: the value under an existing key is replaced,
a new key is added. -/
def insert (k : String) (v : QVariant) : QMap → QMap
  | [] => [(k, v)]
  | (k', v') :: m => if k' = k then (k, v) :: m else (k', v') :: insert k v m

/-- Model of `QMap::operator[]` / `QMap::value`: the stored value, or a
default-constructed (invalid) variant for a missing key. -/
def value (m : QMap) (k : String) : QVariant :=
  (m.lookup k).getD .invalid

/-- Model of `QMap::contains`. -/
def contains (m : QMap) (k : String) : Bool :=
  (m.lookup k).isSome

end QMap

/-- Scanning part of `QString::replace(before, after)`: `skip` counts the
characters of an occurrence already replaced that are still to be dropped.
Occurrences are found left to right, do not overlap, and the inserted text
is not searched again. -/
def replaceAux (before after : List Char) : Nat → List Char → List Char
  | _, [] => []
  | k + 1, _ :: cs => replaceAux before after k cs
  | 0, c :: cs =>
    if before.isPrefixOf (c :: cs) then
      after ++ replaceAux before after (before.length - 1) cs
    else
      c :: replaceAux before after 0 cs

/-- Model of `QString::replace(before, after)` for a non-empty `before`:
every occurrence of `before` is replaced by `after`. -/
def QString.replace (s before after : String) : String :=
  String.mk (replaceAux before.data after.data 0 s.data)

/-- Model of `QDir(dir).filePath(fileName)` on a Unix build: a `QDir` made from
the empty path stands for `.`; an absolute `fileName` is returned as it is,
otherwise it is appended to the directory's path, with a `/` between the two
unless the path already ends in one. -/
def QDir.filePath (dir fileName : String) : String :=
  let ret := if dir = "" then "." else dir
  if fileName.data.head? = some '/' then fileName
  else if fileName = "" then ret
  else if ret.data.getLast? = some '/' then ret ++ fileName
  else ret ++ "/" ++ fileName

/-! ## The view-model's environment -/

/-- A file below a directory: its path relative to the directory, its text and
whether it can be opened for reading. -/
abbrev File := String × String × Bool

/-- What the view-model takes from outside the repository. -/
structure Env where
  /-- `nlohmann::json::parse` on a UTF-8 text; `none` is a `parse_error`. -/
  jsonParse : String → Option Json
  /-- `beam::wallet::GenerateAppID(name, url)`. -/
  GenerateAppID : String → String → String
  /-- `_serverAddr`, set by the constructor to `127.0.0.1:<port>`. -/
  serverAddr : String
  /-- `AppSettings().getLocalAppsPath()`. -/
  localAppsPath : String
  /-- Outcome of `QDir(path).removeRecursively()` on an existing directory:
  `none` when it succeeds, `some rest` when it fails leaving the files `rest`. -/
  removeFails : String → Option (List File)
  /-- Whether `JlCompress::extractDir` into the directory fails. -/
  extractFails : String → Bool

/-- `DappsStoreViewModel::expandLocalUrl`. -/
def expandLocalUrl (env : Env) (folder url : String) : String :=
  QString.replace url "localapp" ("http://" ++ env.serverAddr ++ "/" ++ folder)

/-- `DappsStoreViewModel::expandLocalFile`. -/
def expandLocalFile (env : Env) (folder url : String) : String :=
  let path := QDir.filePath env.localAppsPath folder
  QString.replace url "localapp" ("file:///" ++ path)

/-- `DappsStoreViewModel::parseAppManifest`, on the text read from the stream. -/
def parseAppManifest (env : Env) (content appFolder : String) : Except Exn QMap := do
  let mut app : QMap := []
  if content.isEmpty then
    throw (.runtime_error "Failed to read the manifest file")
  let json ← match env.jsonParse content with
    | some j => pure j
    | none => throw Exn.json_parse_error
  if !json.is_object || json.empty then
    throw (.runtime_error "Invalid manifest file")
  let guid ← json.index "guid"
  if !guid.is_string || guid.empty then
    throw (.runtime_error "Invalid GUID in the manifest file")
  app := app.insert "guid" (.str (← guid.get_string))
  let desc ← json.index "description"
  if !desc.is_string || desc.empty then
    throw (.runtime_error "Invalid description in the manifest file")
  app := app.insert "description" (.str (← desc.get_string))
  let name ← json.index "name"
  if !name.is_string || name.empty then
    throw (.runtime_error "Invalid app name in the manifest file")
  let sname ← name.get_string
  app := app.insert "name" (.str sname)
  let url ← json.index "url"
  if !url.is_string || url.empty then
    throw (.runtime_error "Invalid url in the manifest file")
  let surl ← url.get_string
  app := app.insert "url" (.str (expandLocalUrl env appFolder surl))
  let icon ← json.index "icon"
  if !icon.empty then
    if !icon.is_string then
      throw (.runtime_error "Invalid icon in the manifest file")
    let ipath := expandLocalFile env appFolder (← icon.get_string)
    app := app.insert "icon" (.str ipath)
  let av ← json.index "api_version"
  if !av.empty then
    if !av.is_string then
      throw (.runtime_error "Invalid api_version in the manifest file")
    app := app.insert "api_version" (.str (← av.get_string))
  let mav ← json.index "min_api_version"
  if !mav.empty then
    if !mav.is_string then
      app := app.insert "min_api_version" (.str (← mav.get_string))
    throw (.runtime_error "Invalid min_api_version in the manifest file")
  app := app.insert "local" (.bool true)
  let appid := env.GenerateAppID sname (app.value "url").toString
  app := app.insert "appid" (.str appid)
  return app

/-- The fields `parseAppManifest` accepts for `icon` and `api_version`: an empty
value is skipped (`some none`), a string is taken (`some (some s)`), anything
else is refused (`none`). -/
def optString (j : Json) : Option (Option String) :=
  if j.empty then some none else
  match j with
  | .str s => some (some s)
  | _ => none

/-- The map `parseAppManifest` returns for validated field values: the
sequence of `insert`s of the source, in its order. -/
def manifestMap (env : Env) (folder g d n u : String) (icon av : Option String) : QMap :=
  let app : QMap := []
  let app := app.insert "guid" (.str g)
  let app := app.insert "description" (.str d)
  let app := app.insert "name" (.str n)
  let app := app.insert "url" (.str (expandLocalUrl env folder u))
  let app := match icon with
    | some i => app.insert "icon" (.str (expandLocalFile env folder i))
    | none => app
  let app := match av with
    | some a => app.insert "api_version" (.str a)
    | none => app
  let app := app.insert "local" (.bool true)
  app.insert "appid" (.str (env.GenerateAppID n (app.value "url").toString))

/-! ## The local store on disk -/

/-- The local file system, as far as the view-model looks at it: the existing
directories by path, each with the files below it. -/
abbrev FileSystem := List (String × List File)

namespace FileSystem

/-- Model of `QDir(path).exists()`. -/
def dirExists (fs : FileSystem) (path : String) : Bool :=
  (fs.lookup path).isSome

/-- The files below `path` (none when the directory does not exist). -/
def files (fs : FileSystem) (path : String) : List File :=
  (fs.lookup path).getD []

/-- The file system with the directory `path` holding exactly `fl`. -/
def setDir (path : String) (fl : List File) : FileSystem → FileSystem
  | [] => [(path, fl)]
  | (p, old) :: fs => if p = path then (path, fl) :: fs else (p, old) :: setDir path fl fs

/-- The file system without the directory `path`. -/
def eraseDir (path : String) : FileSystem → FileSystem
  | [] => []
  | (p, old) :: fs => if p = path then eraseDir path fs else (p, old) :: eraseDir path fs

/-- Model of `QDir(path).removeRecursively()`: on success the directory is
gone; on failure (decided by `env.removeFails`) some of its files remain. -/
def removeRecursively (env : Env) (fs : FileSystem) (path : String) : Bool × FileSystem :=
  if fs.dirExists path then
    match env.removeFails path with
    | none => (true, fs.eraseDir path)
    | some rest => (false, fs.setDir path rest)
  else (true, fs)

/-- Model of `QDir(dir).mkdir(name)`: the directory is created unless it is
already there. -/
def mkdir (fs : FileSystem) (dir name : String) : FileSystem :=
  let path := QDir.filePath dir name
  if fs.dirExists path then fs else fs.setDir path []

/-- Model of opening and reading a text file (`QFile::open` and
`QTextStream::readAll`): `none` when the file is missing or cannot be opened. -/
def readFile (fs : FileSystem) (dir name : String) : Option String :=
  match (fs.files dir).lookup name with
  | some (text, true) => some text
  | _ => none

end FileSystem

/-- An entry of a zip archive: its name inside the archive, its data and whether
`QuaZipFile::open` succeeds on it. -/
structure ZipEntry where
  name : String
  data : String
  readable : Bool
  deriving DecidableEq, Repr

/-- The `QIODevice` handed to the installer: the entries QuaZip lists when the
device opens as a zip archive, `none` when `QuaZip::open` fails. -/
structure IODevice where
  zip : Option (List ZipEntry)

/-- The files an extraction of the entries writes. -/
def extractedFiles (entries : List ZipEntry) : List File :=
  entries.map (fun e => (e.name, e.data, true))

/-- Model of `JlCompress::extractDir(ioDevice, dir)`: every entry is written
below `dir` (created if needed), replacing a file of the same name and keeping
the other files already there; the names written are returned.  On failure
the files written are removed again and the empty list is returned. -/
def JlCompress.extractDir (env : Env) (entries : List ZipEntry) (fs : FileSystem)
    (dir : String) : List String × FileSystem :=
  if env.extractFails dir then
    ([], fs.setDir dir (fs.files dir))
  else
    let new := extractedFiles entries
    let kept := (fs.files dir).filter (fun f => !(new.map Prod.fst).contains f.1)
    (new.map Prod.fst, fs.setDir dir (new ++ kept))

/-! ## Registry list and local lookup -/

/-- `DappsStoreViewModel::loadLocalDapp`: the `catch` takes `std::runtime_error`
only, so an nlohmann exception raised by `parseAppManifest` leaves the function. -/
def loadLocalDapp (env : Env) (fs : FileSystem) (guid : String) : Except Exn QMap :=
  let appsPath := env.localAppsPath
  let appFolder := QDir.filePath appsPath guid
  let body : Except Exn QMap := do
    if fs.dirExists appFolder then
      let content ← match fs.readFile appFolder "manifest.json" with
        | some text => pure text
        | none => throw (Exn.runtime_error "Cannot open file")
      let app ← parseAppManifest env content guid
      return app.insert "full_path" (.str appFolder)
    return []
  match body with
  | .ok app => .ok app
  | .error (.runtime_error _) => .ok []
  | .error e => .error e

/-- The lambda `parseStringField` of `loadApps`. -/
def parseStringField (json : Json) (fieldName : String) : Except Exn String := do
  let field ← json.index fieldName
  if !field.is_string then
    throw (.runtime_error ("Invalid " ++ fieldName ++ " of the dapp"))
  field.get_string

/-- Model of `basic_json::items()`: the elements with their keys, which for an
array are the positions written in decimal. -/
def Json.items : Json → List (String × Json)
  | .obj kvs => kvs
  | .arr xs => xs.enum.map (fun p => (toString p.1, p.2))
  | _ => []

/-- The body of the `for` loop of `loadApps` for one item of `dapps`. -/
def loadApps.item (env : Env) (fs : FileSystem) (key : String) (value : Json) :
    Except Exn QMap := do
  if !value.is_object then
    throw (.runtime_error ("Invalid body of the dapp " ++ key))
  let guid ← parseStringField value "id"
  let publisher ← parseStringField value "publisher"
  let mut app : QMap := []
  app := app.insert "description" (.str (← parseStringField value "description"))
  app := app.insert "name" (.str (← parseStringField value "name"))
  app := app.insert "ipfs_id" (.str (← parseStringField value "ipfs_id"))
  app := app.insert "url" (.str "")
  app := app.insert "api_version" (.str (← parseStringField value "api_ver"))
  app := app.insert "min_api_version" (.str (← parseStringField value "min_api_ver"))
  app := app.insert "guid" (.str guid)
  app := app.insert "publisher" (.str publisher)
  app := app.insert "supported" (.bool true)
  let localApp ← loadLocalDapp env fs guid
  if localApp.isEmpty then
    app := app.insert "notInstalled" (.bool true)
  else
    app := app.insert "appid" (localApp.value "appid")
    app := app.insert "hasUpdate" (.bool false)
  return app

/-- The `for` loop of `loadApps`: the items are merged in order and pushed to
`apps`; the first exception ends the loop. -/
def loadApps.loop (env : Env) (fs : FileSystem) :
    List (String × Json) → List QMap → Except Exn (List QMap)
  | [], apps => .ok apps
  | (key, value) :: rest, apps => do
    let app ← loadApps.item env fs key value
    loadApps.loop env fs rest (apps ++ [app])

/-- The `try` block of the `loadApps` callback, up to the assignment to `_apps`. -/
def loadApps.tryBlock (env : Env) (fs : FileSystem) (output : String) :
    Except Exn (List QMap) := do
  let json ← match env.jsonParse output with
    | some j => pure j
    | none => throw Exn.json_parse_error
  if json.empty || !json.is_object then
    throw (.runtime_error "Invalid response of the view_dapps method")
  let dapps ← json.index "dapps"
  if dapps.empty || !dapps.is_array then
    throw (.runtime_error "Invalid response of the view_dapps method")
  loadApps.loop env fs dapps.items []

/-- The view-model's fields. -/
structure State where
  _apps : List QMap
  _publisherKey : String
  deriving DecidableEq, Repr

/-- The Qt signals of the view-model. -/
inductive Signal where
  | appsChanged
  | publisherKeyChanged
  | appInstallOK (appName : String)
  | appInstallFail (appName : String)
  deriving DecidableEq, Repr

/-- What a completion callback leaves behind: the view-model's fields, the
signals emitted in order, and the exception that left the callback, if any. -/
structure Outcome where
  state : State
  emitted : List Signal
  escaped : Option Exn
  deriving DecidableEq, Repr

/-- The completion callback `loadApps` passes to `callShader`; `guard` tells
whether the view-model is still alive. -/
def loadApps.callback (env : Env) (fs : FileSystem) (guard : Bool) (st : State)
    (err output : String) : Outcome :=
  if !guard then ⟨st, [], none⟩
  else if !err.isEmpty then ⟨st, [], none⟩
  else
    match loadApps.tryBlock env fs output with
    | .ok apps => ⟨{ st with _apps := apps }, [.appsChanged], none⟩
    | .error (.runtime_error _) => ⟨st, [], none⟩
    | .error e => ⟨st, [], some e⟩

/-! ## The archive installer -/

/-- The scan loop of `installFromBuffer`: every entry named `manifest.json` is
opened and parsed, and `guid` and `appName` are taken from it. -/
def installFromBuffer.scan (env : Env) :
    List ZipEntry → String × String → Except Exn (String × String)
  | [], acc => .ok acc
  | e :: es, acc =>
    if e.name = "manifest.json" then do
      if !e.readable then
        throw (Exn.runtime_error "Failed to read the DApp archive")
      let app ← parseAppManifest env e.data ""
      installFromBuffer.scan env es ((app.value "guid").toString, (app.value "name").toString)
    else
      installFromBuffer.scan env es acc

/-- `DappsStoreViewModel::installFromBuffer`: the result (the app name, or the
exception thrown) and the file system it leaves. -/
def installFromBuffer (env : Env) (fs : FileSystem) (ioDevice : IODevice) :
    Except Exn String × FileSystem :=
  match ioDevice.zip with
  | none => (.error (.runtime_error "Failed to open the DApp archive"), fs)
  | some entries =>
    match installFromBuffer.scan env entries ("", "") with
    | .error e => (.error e, fs)
    | .ok (guid, appName) =>
      if guid.isEmpty then
        (.error (.runtime_error "Invalid DApp archive"), fs)
      else
        let appsPath := env.localAppsPath
        let appFolder := QDir.filePath appsPath guid
        let (removed, fs1) :=
          if fs.dirExists appFolder then fs.removeRecursively env appFolder else (true, fs)
        if !removed then
          (.error (.runtime_error "Failed to prepare folder"), fs1)
        else
          let fs2 := fs1.mkdir appsPath guid
          let (extracted, fs3) := JlCompress.extractDir env entries fs2 appFolder
          if extracted.isEmpty then
            (.error (.runtime_error "DApp Installation failed"), fs3)
          else
            (.ok appName, fs3)

/-- The record the loop of `loadApps` builds for an entry with the given field
values and the result `localApp` of the local lookup: the `insert`s of the
source, in its order. -/
def mergedRecord (guid publisher description name ipfs_id api_ver min_api_ver : String)
    (localApp : QMap) : QMap :=
  let app : QMap := []
  let app := app.insert "description" (.str description)
  let app := app.insert "name" (.str name)
  let app := app.insert "ipfs_id" (.str ipfs_id)
  let app := app.insert "url" (.str "")
  let app := app.insert "api_version" (.str api_ver)
  let app := app.insert "min_api_version" (.str min_api_ver)
  let app := app.insert "guid" (.str guid)
  let app := app.insert "publisher" (.str publisher)
  let app := app.insert "supported" (.bool true)
  if localApp.isEmpty then
    app.insert "notInstalled" (.bool true)
  else
    (app.insert "appid" (localApp.value "appid")).insert "hasUpdate" (.bool false)

/-! ## Publisher key, publishing and installing from the store -/

/-- `getDappStoreCID()`. -/
def getDappStoreCID : String :=
  "c7bfd39e04ab9ff2f21615e52d973867f9c70b43ffb4f6f7f086b5ba1de08567"

/-- `DappsStoreViewModel::getPublisherKey`: the key returned and the argument
strings of the `callShader` invocations the call issues.  The call itself
changes no field; the key is set by the completion callback. -/
def getPublisherKey (st : State) : String × List String :=
  if st._publisherKey.isEmpty then
    (st._publisherKey, ["role=manager,action=get_pk,cid=" ++ getDappStoreCID])
  else
    (st._publisherKey, [])

/-- The `try` block of the `getPublisherKey` callback, up to the assignment to
`_publisherKey`. -/
def getPublisherKey.tryBlock (env : Env) (output : String) : Except Exn String := do
  let json ← match env.jsonParse output with
    | some j => pure j
    | none => throw Exn.json_parse_error
  if json.empty || !json.is_object then
    throw (.runtime_error "Invalid response of the get_pk method")
  let pk ← json.index "pk"
  if !pk.is_string then
    throw (.runtime_error "Invalid response of the get_pk method")
  pk.get_string

/-- The completion callback `getPublisherKey` passes to `callShader`. -/
def getPublisherKey.callback (env : Env) (guard : Bool) (st : State)
    (err output : String) : Outcome :=
  if !guard then ⟨st, [], none⟩
  else if !err.isEmpty then ⟨st, [], none⟩
  else
    match getPublisherKey.tryBlock env output with
    | .ok pk => ⟨{ st with _publisherKey := pk }, [.publisherKeyChanged], none⟩
    | .error (.runtime_error _) => ⟨st, [], none⟩
    | .error e => ⟨st, [], some e⟩

/-- The argument string `addAppToStore` passes to `callShader`. -/
def addAppToStore.args (app : QMap) (ipfsID : String) : String :=
  let guid := (app.value "guid").toString
  let appName := (app.value "name").toString
  let description := (app.value "description").toString
  "role=manager,action=add_dapp,cid=" ++ getDappStoreCID ++ ",ipfs_id=" ++ ipfsID ++
    ",name=" ++ appName ++ ",id=" ++ guid ++ ",description=" ++ description ++
    ",api_ver=" ++ (app.value "api_version").toString ++
    ",min_api_ver=" ++ (app.value "min_api_version").toString

/-- The completion callback of `addAppToStore`: behind the guard it only logs. -/
def addAppToStore.callback (guard : Bool) (st : State) (err _output : String) : Outcome :=
  if !guard then ⟨st, [], none⟩
  else if !err.isEmpty then ⟨st, [], none⟩
  else ⟨st, [], none⟩

/-- The completion callback of `registerPublisher`: behind the guard it only
logs. -/
def registerPublisher.callback (guard : Bool) (st : State) (err _output : String) : Outcome :=
  if !guard then ⟨st, [], none⟩
  else if !err.isEmpty then ⟨st, [], none⟩
  else ⟨st, [], none⟩

/-- The success callback `uploadApp` passes to the content store: behind the
guard it calls `addAppToStore`; the argument strings of the `callShader`
invocations issued are returned next to the outcome. -/
def uploadApp.onAdded (guard : Bool) (st : State) (app : QMap) (ipfsID : String) :
    Outcome × List String :=
  if !guard then (⟨st, [], none⟩, [])
  else (⟨st, [], none⟩, [addAppToStore.args app ipfsID])

/-- The error callback `uploadApp` passes to the content store: it captures
nothing and only logs. -/
def uploadApp.onError (st : State) (_err : String) : Outcome :=
  ⟨st, [], none⟩

/-- The search of `installApp` for the record with the given guid: the
content id and the name of the first record found. -/
def installApp.find (st : State) (guid : String) : Option (String × String) :=
  match st._apps.find? (fun app =>
      match app.lookup "guid" with
      | none => false
      | some v => v.toString == guid) with
  | none => none
  | some app => some ((app.value "ipfs_id").toString, (app.value "name").toString)

/-- The success callback `installApp` passes to the content store, on the
device made from the data fetched; `assert` is compiled out.  The `catch`
takes `std::runtime_error` only. -/
def installApp.onData (env : Env) (fs : FileSystem) (guard : Bool) (st : State)
    (appName : String) (ioDevice : IODevice) : Outcome × FileSystem :=
  if !guard then (⟨st, [], none⟩, fs)
  else
    match installFromBuffer env fs ioDevice with
    | (.ok _, fs') => (⟨st, [.appInstallOK appName], none⟩, fs')
    | (.error (.runtime_error _), fs') => (⟨st, [.appInstallFail appName], none⟩, fs')
    | (.error e, fs') => (⟨st, [], some e⟩, fs')

/-- The error callback `installApp` passes to the content store: it captures
the guard and does not test it. -/
def installApp.onError (_guard : Bool) (st : State) (appName _err : String) : Outcome :=
  ⟨st, [.appInstallFail appName], none⟩

/-- The loop `while (fname.startsWith("/")) fname = fname.remove(0, 1)` of
`installFromFile`. -/
def stripSlashes : List Char → List Char
  | [] => []
  | c :: cs => if c = '/' then stripSlashes cs else c :: cs

/-- The file name `installFromFile` opens for `rawFname` (build without
`WIN32`). -/
def installFromFile.fname (rawFname : String) : String :=
  if "file:".data.isPrefixOf rawFname.data then
    String.mk ('/' :: stripSlashes (rawFname.data.drop 5))
  else
    rawFname

/-- The scan loop of `installFromFile` over the entries still to visit, with
`entries` the whole archive: at every entry named `manifest.json` the manifest
is opened by name (`QuaZipFile mfile(zip.getZipName(), zipFname)`), which
selects the first entry of that name in the archive, and `guid` and `appName`
are taken from it. -/
def installFromFile.scan (env : Env) (entries : List ZipEntry) :
    List ZipEntry → String × String → Except Exn (String × String)
  | [], acc => .ok acc
  | e :: es, acc =>
    if e.name = "manifest.json" then
      match entries.find? (fun x => x.name = "manifest.json") with
      | none => .error (.runtime_error "Failed to read the DApp file")
      | some mfile => do
        if !mfile.readable then
          throw (Exn.runtime_error "Failed to read the DApp file")
        let app ← parseAppManifest env mfile.data ""
        installFromFile.scan env entries es
          ((app.value "guid").toString, (app.value "name").toString)
    else
      installFromFile.scan env entries es acc

/-- The `try` block of `installFromFile` behind the file-name normalisation:
the result (the app name, or the exception thrown) and the file system it
leaves. -/
def installFromFile.tryBlock (env : Env) (disk : String → Option (List ZipEntry))
    (fs : FileSystem) (fname : String) : Except Exn String × FileSystem :=
  match disk fname with
  | none => (.error (.runtime_error "Failed to open the DApp file"), fs)
  | some entries =>
    match installFromFile.scan env entries entries ("", "") with
    | .error e => (.error e, fs)
    | .ok (guid, appName) =>
      if guid.isEmpty then
        (.error (.runtime_error "Invalid DApp file"), fs)
      else
        let appsPath := env.localAppsPath
        let appFolder := QDir.filePath appsPath guid
        let (removed, fs1) :=
          if fs.dirExists appFolder then fs.removeRecursively env appFolder else (true, fs)
        if !removed then
          (.error (.runtime_error "Failed to prepare folder"), fs1)
        else
          let fs2 := fs1.mkdir appsPath guid
          let (extracted, fs3) := JlCompress.extractDir env entries fs2 appFolder
          if extracted.isEmpty then
            (.error (.runtime_error "DApp Installation failed"), fs3)
          else
            (.ok appName, fs3)

/-- `DappsStoreViewModel::installFromFile`, with `disk` giving the entries of
the zip file at a path (`none` when `QuaZip::open` fails): the name returned
and the file system it leaves.  `catch (std::exception&)` takes every
exception and returns the empty name. -/
def installFromFile (env : Env) (disk : String → Option (List ZipEntry)) (fs : FileSystem)
    (rawFname : String) : String × FileSystem :=
  let fname := installFromFile.fname rawFname
  match installFromFile.tryBlock env disk fs fname with
  | (.ok appName, fs') => (appName, fs')
  | (.error _, fs') => ("", fs')

/-! ## Tables and sample inputs -/

/-- The validation errors `parseAppManifest` raises for its four required
fields, in the order the fields are checked. -/
def requiredFieldErrors : List (String × Exn) :=
  [("guid", .runtime_error "Invalid GUID in the manifest file"),
   ("description", .runtime_error "Invalid description in the manifest file"),
   ("name", .runtime_error "Invalid app name in the manifest file"),
   ("url", .runtime_error "Invalid url in the manifest file")]

/-- The text of the empty JSON object. -/
def textEmptyObject : String := "\x7b\x7d"

/-- A manifest whose `guid` is a number and whose `description` is missing. -/
def textGuidNumber : String :=
  "\x7b\"guid\":5,\"name\":\"Calc\",\"url\":\"localapp/index.html\"\x7d"

/-- The members `textGuidNumber` parses to. -/
def jsonGuidNumber : List (String × Json) :=
  [("guid", .num 5), ("name", .str "Calc"), ("url", .str "localapp/index.html")]

/-- A manifest without `description`. -/
def textNoDescription : String :=
  "\x7b\"guid\":\"a1\",\"name\":\"Calc\",\"url\":\"localapp/index.html\"\x7d"

/-- The members `textNoDescription` parses to. -/
def jsonNoDescription : List (String × Json) :=
  [("guid", .str "a1"), ("name", .str "Calc"), ("url", .str "localapp/index.html")]

/-- A manifest whose four required fields are empty strings. -/
def textEmptyStrings : String :=
  "\x7b\"guid\":\"\",\"description\":\"\",\"name\":\"\",\"url\":\"\"\x7d"

/-- The members `textEmptyStrings` parses to. -/
def jsonEmptyStrings : List (String × Json) :=
  [("guid", .str ""), ("description", .str ""), ("name", .str ""), ("url", .str "")]

/-- A valid manifest that also carries a string `min_api_version`. -/
def textMinApi : String :=
  "\x7b\"guid\":\"a1\",\"description\":\"d\",\"name\":\"Calc\"," ++
    "\"url\":\"localapp/index.html\",\"min_api_version\":\"6.1\"\x7d"

/-- The members `textMinApi` parses to. -/
def jsonMinApi : List (String × Json) :=
  [("guid", .str "a1"), ("description", .str "d"), ("name", .str "Calc"),
   ("url", .str "localapp/index.html"), ("min_api_version", .str "6.1")]

/-- The valid manifest of the scenarios: id `a1`, description `d`, name `Calc`,
url `localapp/index.html`. -/
def textCalc : String :=
  "\x7b\"guid\":\"a1\",\"description\":\"d\",\"name\":\"Calc\"," ++
    "\"url\":\"localapp/index.html\"\x7d"

/-- The members `textCalc` parses to. -/
def jsonCalc : List (String × Json) :=
  [("guid", .str "a1"), ("description", .str "d"), ("name", .str "Calc"),
   ("url", .str "localapp/index.html")]

/-- The manifest `textCalc` with an `appid` member of its own. -/
def textSpoofedAppid : String :=
  "\x7b\"appid\":\"spoofed\",\"guid\":\"a1\",\"description\":\"d\",\"name\":\"Calc\"," ++
    "\"url\":\"localapp/index.html\"\x7d"

/-- The members `textSpoofedAppid` parses to. -/
def jsonSpoofedAppid : List (String × Json) :=
  ("appid", .str "spoofed") :: jsonCalc

/-- The result of parsing `textCalc` for the folder `a1` in `sampleEnv`. -/
def appCalc : QMap :=
  [("guid", .str "a1"), ("description", .str "d"), ("name", .str "Calc"),
   ("url", .str "http://127.0.0.1:8080/a1/index.html"), ("local", .bool true),
   ("appid", .str "Calc@http://127.0.0.1:8080/a1/index.html")]

/-- A token no proper non-empty end of which is also a beginning of it. -/
def borderFree (tok : List Char) : Prop :=
  ∀ r : List Char, r ≠ [] → r <+: tok → r <:+ tok → r = tok

/-- The manifest `textCalc` with an icon below the placeholder. -/
def textCalcIcon : String :=
  "\x7b\"guid\":\"a1\",\"description\":\"d\",\"name\":\"Calc\"," ++
    "\"url\":\"localapp/index.html\",\"icon\":\"localapp/icon.svg\"\x7d"

/-- The members `textCalcIcon` parses to. -/
def jsonCalcIcon : List (String × Json) :=
  [("guid", .str "a1"), ("description", .str "d"), ("name", .str "Calc"),
   ("url", .str "localapp/index.html"), ("icon", .str "localapp/icon.svg")]

/-- The result of parsing `textCalcIcon` for the folder `a1` in `sampleEnv`. -/
def appCalcIcon : QMap :=
  [("guid", .str "a1"), ("description", .str "d"), ("name", .str "Calc"),
   ("url", .str "http://127.0.0.1:8080/a1/index.html"),
   ("icon", .str "file:////apps/a1/icon.svg"), ("local", .bool true),
   ("appid", .str "Calc@http://127.0.0.1:8080/a1/index.html")]

/-- An archive with the manifest `textCalc` and one page. -/
def sampleArchive : List ZipEntry :=
  [⟨"manifest.json", textCalc, true⟩, ⟨"index.html", "<html></html>", true⟩]

/-- A local store in which `a1` is installed with a file the archive lacks,
next to another app. -/
def sampleStore : FileSystem :=
  [("/apps/a1", [("manifest.json", textCalc, true), ("old.js", "var x;", true)]),
   ("/apps/b2", [("manifest.json", textCalcIcon, true)])]

/-- An archive without an entry named `manifest.json`. -/
def sampleArchiveNoManifest : List ZipEntry :=
  [⟨"index.html", "<html></html>", true⟩, ⟨"app.js", "var y;", true⟩]

/-- The names of the string fields every entry of `dapps` must carry, in the
order `loadApps` reads them. -/
def registryFields : List String :=
  ["id", "publisher", "description", "name", "ipfs_id", "api_ver", "min_api_ver"]

/-- A registry response with a valid entry followed by one without `ipfs_id`. -/
def textDappsBadEntry : String :=
  "\x7b\"dapps\":[\x7b\"id\":\"b7\",\"publisher\":\"p1\",\"description\":\"d\"," ++
    "\"name\":\"Chess\",\"ipfs_id\":\"cid7\",\"api_ver\":\"6.1\",\"min_api_ver\":\"6.0\"\x7d," ++
    "\x7b\"id\":\"c9\",\"publisher\":\"p1\",\"description\":\"d\",\"name\":\"Go\"," ++
    "\"api_ver\":\"6.1\",\"min_api_ver\":\"6.0\"\x7d]\x7d"

/-- The entries of `dapps` in `textDappsBadEntry`. -/
def jsonDappsBadEntry : List Json :=
  [.obj [("id", .str "b7"), ("publisher", .str "p1"), ("description", .str "d"),
     ("name", .str "Chess"), ("ipfs_id", .str "cid7"), ("api_ver", .str "6.1"),
     ("min_api_ver", .str "6.0")],
   .obj [("id", .str "c9"), ("publisher", .str "p1"), ("description", .str "d"),
     ("name", .str "Go"), ("api_ver", .str "6.1"), ("min_api_ver", .str "6.0")]]

/-- A view-model state with one cached app. -/
def sampleState : State :=
  ⟨[[("name", .str "Old"), ("guid", .str "z0")]], ""⟩

/-- The registry entry of the scenario: app `a1`, `Calc`, content id `cid123`. -/
def jsonEntryCalc : Json :=
  .obj [("id", .str "a1"), ("publisher", .str "p1"), ("description", .str "d"),
    ("name", .str "Calc"), ("ipfs_id", .str "cid123"), ("api_ver", .str "1.0"),
    ("min_api_ver", .str "1.0")]

/-- A registry entry of an app that is not in `sampleStore`. -/
def jsonEntryGo : Json :=
  .obj [("id", .str "c9"), ("publisher", .str "p1"), ("description", .str "d"),
    ("name", .str "Go"), ("ipfs_id", .str "cid9"), ("api_ver", .str "6.1"),
    ("min_api_ver", .str "6.0")]

/-- A registry response whose `dapps` array holds `a1` and `c9`. -/
def textDappsTwo : String :=
  "\x7b\"dapps\":[\x7b\"id\":\"a1\",\"publisher\":\"p1\",\"description\":\"d\"," ++
    "\"name\":\"Calc\",\"ipfs_id\":\"cid123\",\"api_ver\":\"1.0\",\"min_api_ver\":\"1.0\"\x7d," ++
    "\x7b\"id\":\"c9\",\"publisher\":\"p1\",\"description\":\"d\",\"name\":\"Go\"," ++
    "\"ipfs_id\":\"cid9\",\"api_ver\":\"6.1\",\"min_api_ver\":\"6.0\"\x7d]\x7d"

/-- The registry response of the scenario as it is written there: `dapps` is an
object with the key `0`. -/
def textDappsObject : String :=
  "\x7b\"dapps\":\x7b\"0\":\x7b\"id\":\"a1\",\"publisher\":\"p1\",\"description\":\"d\"," ++
    "\"name\":\"Calc\",\"ipfs_id\":\"cid123\",\"api_ver\":\"1.0\",\"min_api_ver\":\"1.0\"\x7d\x7d\x7d"

/-- The registry response of the scenario with `dapps` as an array. -/
def textDappsArray : String :=
  "\x7b\"dapps\":[\x7b\"id\":\"a1\",\"publisher\":\"p1\",\"description\":\"d\"," ++
    "\"name\":\"Calc\",\"ipfs_id\":\"cid123\",\"api_ver\":\"1.0\",\"min_api_ver\":\"1.0\"\x7d]\x7d"

/-- A local store in which `a1` is not installed. -/
def sampleStoreWithoutA1 : FileSystem :=
  [("/apps/b2", [("manifest.json", textCalcIcon, true)])]

/-- The records merged from `textDappsTwo` over `sampleStore`: `a1` is
installed there, `c9` is not. -/
def sampleMerged : List QMap :=
  [[("description", .str "d"), ("name", .str "Calc"), ("ipfs_id", .str "cid123"),
    ("url", .str ""), ("api_version", .str "1.0"), ("min_api_version", .str "1.0"),
    ("guid", .str "a1"), ("publisher", .str "p1"), ("supported", .bool true),
    ("appid", .str "Calc@http://127.0.0.1:8080/a1/index.html"),
    ("hasUpdate", .bool false)],
   [("description", .str "d"), ("name", .str "Go"), ("ipfs_id", .str "cid9"),
    ("url", .str ""), ("api_version", .str "6.1"), ("min_api_version", .str "6.0"),
    ("guid", .str "c9"), ("publisher", .str "p1"), ("supported", .bool true),
    ("notInstalled", .bool true)]]

/-- A `get_pk` response with the key `K1`. -/
def textPkK1 : String := "\x7b\"pk\":\"K1\"\x7d"

/-- A `get_pk` response whose key is the empty string. -/
def textPkEmpty : String := "\x7b\"pk\":\"\"\x7d"

/-- A local store in which the manifest of `a1` is not JSON. -/
def sampleStoreCorrupt : FileSystem :=
  [("/apps/a1", [("manifest.json", "not json", true), ("index.html", "<html></html>", true)])]

/-- An archive whose manifest entry is not JSON. -/
def sampleArchiveCorrupt : List ZipEntry :=
  [⟨"manifest.json", "not json", true⟩, ⟨"index.html", "<html></html>", true⟩]

/-- A registry response whose `dapps` array is empty. -/
def textDappsEmpty : String := "\x7b\"dapps\":[]\x7d"

/-- Some JSON texts with the values they parse to. -/
def sampleTexts : List (String × Json) :=
  [(textEmptyObject, .obj []),
   (textGuidNumber, .obj jsonGuidNumber),
   (textNoDescription, .obj jsonNoDescription),
   (textEmptyStrings, .obj jsonEmptyStrings),
   (textMinApi, .obj jsonMinApi),
   (textCalc, .obj jsonCalc),
   (textSpoofedAppid, .obj jsonSpoofedAppid),
   (textCalcIcon, .obj jsonCalcIcon),
   (textDappsBadEntry, .obj [("dapps", .arr jsonDappsBadEntry)]),
   (textDappsTwo, .obj [("dapps", .arr [jsonEntryCalc, jsonEntryGo])]),
   (textDappsObject, .obj [("dapps", .obj [("0", jsonEntryCalc)])]),
   (textDappsArray, .obj [("dapps", .arr [jsonEntryCalc])]),
   (textPkK1, .obj [("pk", .str "K1")]),
   (textPkEmpty, .obj [("pk", .str "")]),
   (textDappsEmpty, .obj [("dapps", .arr [])])]

/-- An environment for the sample inputs: the parser reads `sampleTexts`, the
digest joins its two arguments, the server listens on port 8080 and the local
store is `/apps`; removal and extraction succeed. -/
def sampleEnv : Env where
  jsonParse := fun text => sampleTexts.lookup text
  GenerateAppID := fun name url => name ++ "@" ++ url
  serverAddr := "127.0.0.1:8080"
  localAppsPath := "/apps"
  removeFails := fun _ => none
  extractFails := fun _ => false

end DappsStore

/-!
# Transaction table view-model (`ui/viewmodel/wallet/tx_table.cpp`)

The slot `TxTableViewModel::onTransactionsChanged`.  The wallet's
`TxDescription`, `TxType` and `ChangeAction`, the status predicates of
`TxObject` and the list operations of `TxObjectList` are declared outside the
sources at hand.
-/

namespace TxTable

/-- The values of `beam::wallet::TxType` that the `switch` of
`onTransactionsChanged` names; `other` stands for a value it does not name. -/
inductive TxType where
  | Simple
  | AtomicSwap
  | AssetIssue
  | AssetConsume
  | AssetReg
  | AssetUnreg
  | AssetInfo
  | PushTransaction
  | PullTransaction
  | VoucherRequest
  | VoucherResponse
  | UnlinkFunds
  | Contract
  | DexSimpleSwap
  | ALL
  | other (value : Nat)
  deriving DecidableEq, Repr

/-- The values of `beam::wallet::ChangeAction` the slot handles. -/
inductive ChangeAction where
  | Added
  | Removed
  | Updated
  | Reset
  deriving DecidableEq, Repr

/-- A `beam::wallet::TxDescription` as far as the slot reads it: the
`TransactionType` parameter (absent when `GetParameter` returns nothing); `txId`
and `status` stand for the rest of the description. -/
structure TxDescription where
  txId : Nat
  txType : Option TxType
  status : Nat
  deriving DecidableEq, Repr

/-- A `TxObject`, made from a description and the second currency. -/
structure TxObject where
  tx : TxDescription
  secondCurrency : String
  deriving DecidableEq, Repr

/-- What the slot takes from outside the sources: the rate currency, the status
predicates of `TxObject` and the `remove`, `insert` and `update` of
`TxObjectList` (from the list held and the list given to the list held
afterwards). -/
structure Env where
  getRateCurrency : String
  isInProgress : TxObject → Bool
  isCompleted : TxObject → Bool
  isCanceled : TxObject → Bool
  isFailed : TxObject → Bool
  remove : List TxObject → List TxObject → List TxObject
  insert : List TxObject → List TxObject → List TxObject
  update : List TxObject → List TxObject → List TxObject

/-- The fields of `TxTableViewModel` the slot reads or writes. -/
structure State where
  _transactionsList : List TxObject
  _showInProgress : Bool
  _showCompleted : Bool
  _showCanceled : Bool
  _showFailed : Bool
  deriving DecidableEq, Repr

/-- The signals of `TxTableViewModel` the slot emits. -/
inductive Signal where
  | transactionsChanged
  deriving DecidableEq, Repr

/-- Modelled from the spec: `TxObjectList::reset`, which is declared in
`tx_object_list.h`, outside the sources; by its name and its use the list
then holds the transactions given, in their order. -/
def TxObjectList.reset (_held given : List TxObject) : List TxObject :=
  given

/-- The first loop of `onTransactionsChanged`: a `TxObject` is pushed for each
transaction whose type is `Contract`, `PushTransaction`, `Simple` or
`DexSimpleSwap`; a transaction of another type or without a type is passed
over (`assert` is compiled out). -/
def onTransactionsChanged.collect (secondCurrency : String) :
    List TxDescription → List TxObject
  | [] => []
  | t :: ts =>
    match t.txType with
    | some txType =>
      match txType with
      | .AtomicSwap | .AssetIssue | .AssetConsume | .AssetReg | .AssetUnreg | .AssetInfo
      | .PullTransaction | .UnlinkFunds | .VoucherRequest | .VoucherResponse =>
        onTransactionsChanged.collect secondCurrency ts
      | .ALL => onTransactionsChanged.collect secondCurrency ts
      | .Contract | .PushTransaction | .Simple | .DexSimpleSwap =>
        ⟨t, secondCurrency⟩ :: onTransactionsChanged.collect secondCurrency ts
      | .other _ => onTransactionsChanged.collect secondCurrency ts
    | none => onTransactionsChanged.collect secondCurrency ts

/-- The loop of the `Reset` case: a transaction is passed over when it is in
progress, completed, canceled or failed and the flag of that status is off. -/
def onTransactionsChanged.filterReset (env : Env) (st : State) :
    List TxObject → List TxObject
  | [] => []
  | tx :: txs =>
    if !st._showInProgress && env.isInProgress tx then
      onTransactionsChanged.filterReset env st txs
    else if !st._showCompleted && env.isCompleted tx then
      onTransactionsChanged.filterReset env st txs
    else if !st._showCanceled && env.isCanceled tx then
      onTransactionsChanged.filterReset env st txs
    else if !st._showFailed && env.isFailed tx then
      onTransactionsChanged.filterReset env st txs
    else
      tx :: onTransactionsChanged.filterReset env st txs

/-- `TxTableViewModel::onTransactionsChanged`: the fields afterwards and the
signals emitted. -/
def onTransactionsChanged (env : Env) (st : State) (action : ChangeAction)
    (transactions : List TxDescription) : State × List Signal :=
  let secondCurrency := env.getRateCurrency
  let modifiedTransactions := onTransactionsChanged.collect secondCurrency transactions
  let st' : State :=
    match action with
    | .Reset =>
      let modifiedTransactionsFiltered :=
        onTransactionsChanged.filterReset env st modifiedTransactions
      { st with _transactionsList :=
          TxObjectList.reset st._transactionsList modifiedTransactionsFiltered }
    | .Removed =>
      { st with _transactionsList := env.remove st._transactionsList modifiedTransactions }
    | .Added =>
      { st with _transactionsList := env.insert st._transactionsList modifiedTransactions }
    | .Updated =>
      { st with _transactionsList := env.update st._transactionsList modifiedTransactions }
  (st', [.transactionsChanged])

/-- A transaction of a type the table displays, in the words of the claim:
`Contract`, `PushTransaction`, `Simple` or `DexSimpleSwap`. -/
def displayableType (t : TxDescription) : Bool :=
  t.txType = some .Contract || t.txType = some .PushTransaction ||
    t.txType = some .Simple || t.txType = some .DexSimpleSwap

/-- A transaction that matches a disabled status filter, in the words of the
claim: in progress with `showInProgress` off, completed with `showCompleted`
off, canceled with `showCanceled` off or failed with `showFailed` off. -/
def matchesDisabledFilter (env : Env) (st : State) (tx : TxObject) : Bool :=
  (!st._showInProgress && env.isInProgress tx) || (!st._showCompleted && env.isCompleted tx) ||
    (!st._showCanceled && env.isCanceled tx) || (!st._showFailed && env.isFailed tx)

/-- An environment for examples: the status is `1` in progress, `2` completed,
`3` canceled, `4` failed; the list operations other than `reset` keep the
list held. -/
def sampleEnv : Env where
  getRateCurrency := "usd"
  isInProgress := fun tx => tx.tx.status == 1
  isCompleted := fun tx => tx.tx.status == 2
  isCanceled := fun tx => tx.tx.status == 3
  isFailed := fun tx => tx.tx.status == 4
  remove := fun held _ => held
  insert := fun held _ => held
  update := fun held _ => held

/-- Five incoming transactions: a completed `Simple`, an `AtomicSwap`, a failed
`Contract`, one without a type and a `DexSimpleSwap` in progress. -/
def sampleTransactions : List TxDescription :=
  [⟨1, some .Simple, 2⟩, ⟨2, some .AtomicSwap, 2⟩, ⟨3, some .Contract, 4⟩, ⟨4, none, 2⟩,
   ⟨5, some .DexSimpleSwap, 1⟩]

end TxTable

namespace DappsStore

/-! ## Theorems: the manifest parser -/

set_option maxRecDepth 8192

/-- A successful parse fixes the shape of the manifest and of the result. -/
theorem parseAppManifest_ok {env : Env} {content folder : String} {app : QMap}
    (h : parseAppManifest env content folder = .ok app) :
    ∃ json g d n u icon av, content.isEmpty = false ∧ env.jsonParse content = some json ∧
      json.is_object = true ∧ json.empty = false ∧
      json.index "guid" = .ok (.str g) ∧ json.index "description" = .ok (.str d) ∧
      json.index "name" = .ok (.str n) ∧ json.index "url" = .ok (.str u) ∧
      (json.index "icon").toOption.bind optString = some icon ∧
      (json.index "api_version").toOption.bind optString = some av ∧
      (json.index "min_api_version").toOption.map Json.empty = some true ∧
      app = manifestMap env folder g d n u icon av := by
  unfold parseAppManifest at h
  cases h1 : content.isEmpty
  swap
  · simp [h1, bind, Except.bind, throw, throwThe, MonadExceptOf.throw] at h
  cases h2 : env.jsonParse content with
  | none => simp [h1, h2, bind, Except.bind, throw, throwThe, MonadExceptOf.throw, pure, Except.pure] at h
  | some json =>
  refine ⟨json, ?_⟩
  simp only [h1, h2] at h
  rcases json with _ | _ | _ | _ | _ | kvs <;>
    try (simp [ bind, Except.bind, throw, throwThe, MonadExceptOf.throw, pure, Except.pure, Json.is_object, Json.empty] at h; done)
  cases kvs with
  | nil => simp [ bind, Except.bind, throw, throwThe, MonadExceptOf.throw, pure, Except.pure, Json.is_object, Json.empty] at h
  | cons kv kvs =>
  simp only [Json.index]
  simp only [Json.index, bind, Except.bind, throw, throwThe, MonadExceptOf.throw, pure, Except.pure, Json.is_object, Json.empty, List.isEmpty_cons, Bool.not_true, Bool.or_false, Bool.false_eq_true, if_false] at h
  generalize ((kv :: kvs).lookup "guid").getD .null = g at h ⊢
  rcases g with _ | _ | _ | g | _ | _ <;>
    try (simp [Json.is_string, Json.empty] at h; done)
  simp only [Json.is_string, Json.empty, Json.get_string, Bool.not_true, Bool.or_false, Bool.false_eq_true, if_false] at h
  generalize ((kv :: kvs).lookup "description").getD .null = d at h ⊢
  rcases d with _ | _ | _ | d | _ | _ <;>
    try (simp [Json.is_string, Json.empty] at h; done)
  simp only [Json.is_string, Json.empty, Json.get_string, Bool.not_true, Bool.or_false, Bool.false_eq_true, if_false] at h
  generalize ((kv :: kvs).lookup "name").getD .null = n at h ⊢
  rcases n with _ | _ | _ | n | _ | _ <;>
    try (simp [Json.is_string, Json.empty] at h; done)
  simp only [Json.is_string, Json.empty, Json.get_string, Bool.not_true, Bool.or_false, Bool.false_eq_true, if_false] at h
  generalize ((kv :: kvs).lookup "url").getD .null = u at h ⊢
  rcases u with _ | _ | _ | u | _ | _ <;>
    try (simp [Json.is_string, Json.empty] at h; done)
  simp only [Json.is_string, Json.empty, Json.get_string, Bool.not_true, Bool.or_false, Bool.false_eq_true, if_false] at h
  generalize ((kv :: kvs).lookup "icon").getD .null = icon at h ⊢
  rcases icon with _ | _ | _ | icon | (_ | _) | (_ | _) <;>
    simp only [Json.is_string, Json.empty, Json.get_string, Bool.not_true, Bool.not_false,
      Bool.or_false, Bool.false_eq_true, if_false, if_true, List.isEmpty_cons, List.isEmpty_nil, reduceCtorEq] at h
  all_goals
    generalize ((kv :: kvs).lookup "api_version").getD .null = av at h ⊢
    rcases av with _ | _ | _ | av | (_ | _) | (_ | _) <;>
    simp only [Json.is_string, Json.empty, Json.get_string, Bool.not_true, Bool.not_false,
      Bool.or_false, Bool.false_eq_true, if_false, if_true, List.isEmpty_cons, List.isEmpty_nil, reduceCtorEq] at h
  all_goals
    generalize ((kv :: kvs).lookup "min_api_version").getD .null = mav at h ⊢
    rcases mav with _ | _ | _ | mav | (_ | _) | (_ | _) <;>
    simp only [Json.is_string, Json.empty, Json.get_string, Bool.not_true, Bool.not_false,
      Bool.or_false, Bool.false_eq_true, if_false, if_true, List.isEmpty_cons, List.isEmpty_nil, reduceCtorEq] at h
  all_goals
    simp only [Except.ok.injEq] at h
    subst h
    exact ⟨g, d, n, u, _, _, trivial, trivial, rfl, rfl, rfl, rfl, rfl, rfl, rfl, rfl, rfl, rfl⟩

/-- The parse of an object whose `guid`, `description`, `name` and `url` are
strings is decided by `icon`, `api_version` and `min_api_version`. -/
theorem parseAppManifest_required {env : Env} {content folder : String} {json : Json}
    {g d n u : String}
    (h1 : content.isEmpty = false) (h2 : env.jsonParse content = some json)
    (hobj : json.is_object = true) (hne : json.empty = false)
    (hg : json.index "guid" = .ok (.str g)) (hd : json.index "description" = .ok (.str d))
    (hn : json.index "name" = .ok (.str n)) (hu : json.index "url" = .ok (.str u)) :
    parseAppManifest env content folder =
      match (json.index "icon").toOption.bind optString with
      | none => .error (.runtime_error "Invalid icon in the manifest file")
      | some icon =>
        match (json.index "api_version").toOption.bind optString with
        | none => .error (.runtime_error "Invalid api_version in the manifest file")
        | some av =>
          match json.index "min_api_version" with
          | .ok mav =>
            if mav.empty then .ok (manifestMap env folder g d n u icon av)
            else if mav.is_string then
              .error (.runtime_error "Invalid min_api_version in the manifest file")
            else .error .json_type_error
          | .error e => .error e := by
  rcases json with _ | _ | _ | _ | _ | kvs <;> simp [Json.is_object] at hobj
  simp only [Json.index, Except.ok.injEq] at hg hd hn hu
  simp only [Json.empty] at hne
  unfold parseAppManifest
  simp only [h1, h2, Json.index, hg, hd, hn, hu, hne, bind, Except.bind, throw, throwThe, MonadExceptOf.throw, pure, Except.pure, Json.is_object, Json.empty, Bool.not_true, Bool.or_false, Bool.false_eq_true, if_false, Json.is_string, Json.get_string, Except.toOption, Option.bind]
  generalize (kvs.lookup "icon").getD .null = icon
  generalize (kvs.lookup "api_version").getD .null = av 
  generalize (kvs.lookup "min_api_version").getD .null = mav
  rcases icon with _ | _ | _ | icon | (_ | _) | (_ | _) <;>
    rcases av with _ | _ | _ | av | (_ | _) | (_ | _) <;>
    rcases mav with _ | _ | _ | mav | (_ | _) | (_ | _) <;>
    rfl

/-- The required fields are checked in the order `guid`, `description`, `name`,
`url`; the first one that is not a string decides the error. -/
theorem parseAppManifest_required_error {env : Env} {content : String} (folder : String)
    {kvs : List (String × Json)}
    (h1 : content.isEmpty = false) (h2 : env.jsonParse content = some (.obj kvs))
    (hne : kvs ≠ []) :
    (((kvs.lookup "guid").getD .null).is_string = false →
      parseAppManifest env content folder =
        .error (.runtime_error "Invalid GUID in the manifest file")) ∧
    (((kvs.lookup "guid").getD .null).is_string = true →
      ((kvs.lookup "description").getD .null).is_string = false →
      parseAppManifest env content folder =
        .error (.runtime_error "Invalid description in the manifest file")) ∧
    (((kvs.lookup "guid").getD .null).is_string = true →
      ((kvs.lookup "description").getD .null).is_string = true →
      ((kvs.lookup "name").getD .null).is_string = false →
      parseAppManifest env content folder =
        .error (.runtime_error "Invalid app name in the manifest file")) ∧
    (((kvs.lookup "guid").getD .null).is_string = true →
      ((kvs.lookup "description").getD .null).is_string = true →
      ((kvs.lookup "name").getD .null).is_string = true →
      ((kvs.lookup "url").getD .null).is_string = false →
      parseAppManifest env content folder =
        .error (.runtime_error "Invalid url in the manifest file")) := by
  cases kvs with
  | nil => exact absurd rfl hne
  | cons kv kvs =>
  unfold parseAppManifest
  simp only [h1, h2, Json.index, bind, Except.bind, throw, throwThe, MonadExceptOf.throw, pure,
    Except.pure, Json.is_object, Json.empty, List.isEmpty_cons, Bool.not_true, Bool.or_false,
    Bool.false_eq_true, if_false]
  generalize ((kv :: kvs).lookup "guid").getD .null = g
  generalize ((kv :: kvs).lookup "description").getD .null = d
  generalize ((kv :: kvs).lookup "name").getD .null = n
  generalize ((kv :: kvs).lookup "url").getD .null = u
  refine ⟨?_, ?_, ?_, ?_⟩
  · intro hg
    rcases g with _ | _ | _ | g | (_ | _) | (_ | _) <;> first | rfl | simp [Json.is_string] at hg
  · intro hg hd
    rcases g with _ | _ | _ | g | _ | _ <;> simp [Json.is_string] at hg
    rcases d with _ | _ | _ | d | (_ | _) | (_ | _) <;> first | rfl | simp [Json.is_string] at hd
  · intro hg hd hn
    rcases g with _ | _ | _ | g | _ | _ <;> simp [Json.is_string] at hg
    rcases d with _ | _ | _ | d | _ | _ <;> simp [Json.is_string] at hd
    rcases n with _ | _ | _ | n | (_ | _) | (_ | _) <;> first | rfl | simp [Json.is_string] at hn
  · intro hg hd hn hu
    rcases g with _ | _ | _ | g | _ | _ <;> simp [Json.is_string] at hg
    rcases d with _ | _ | _ | d | _ | _ <;> simp [Json.is_string] at hd
    rcases n with _ | _ | _ | n | _ | _ <;> simp [Json.is_string] at hn
    rcases u with _ | _ | _ | u | (_ | _) | (_ | _) <;> first | rfl | simp [Json.is_string] at hu

/-- A looked-up field is a string exactly when the key holds a string. -/
theorem lookup_is_string (kvs : List (String × Json)) (k : String) :
    ((kvs.lookup k).getD .null).is_string = true ↔ ∃ s, kvs.lookup k = some (.str s) := by
  cases h : kvs.lookup k with
  | none => simp [Json.is_string]
  | some v => cases v <;> simp [Json.is_string]

/-- C1 (amended). For every manifest text that parses as a non-empty JSON object
lacking at least one of `guid`, `description`, `name`, `url`, `parseAppManifest`
fails with the error of the first required field, in that order, whose value is
not a string: the fields before it hold strings, and when every required field
that is present holds a string, the field named is a missing one.  The four
errors are pairwise distinct. -/
theorem C1_first_invalid_required_field (env : Env) (content folder : String)
    (kvs : List (String × Json))
    (h1 : content.isEmpty = false) (h2 : env.jsonParse content = some (.obj kvs))
    (hne : kvs ≠ [])
    (hmiss : ∃ f ∈ requiredFieldErrors.map Prod.fst, kvs.lookup f = none) :
    (∃ pre f e post, requiredFieldErrors = pre ++ (f, e) :: post ∧
      (∀ p ∈ pre, ∃ s, kvs.lookup p.1 = some (.str s)) ∧
      (∀ s, kvs.lookup f ≠ some (.str s)) ∧
      ((∀ f' ∈ requiredFieldErrors.map Prod.fst, ∀ v, kvs.lookup f' = some v →
          v.is_string = true) → kvs.lookup f = none) ∧
      parseAppManifest env content folder = .error e) ∧
    (requiredFieldErrors.map Prod.snd).Nodup := by
  refine ⟨?_, by decide⟩
  obtain ⟨e1, e2, e3, e4⟩ := parseAppManifest_required_error folder h1 h2 hne
  have key : ∀ f, (∀ s, kvs.lookup f ≠ some (.str s)) → f ∈ requiredFieldErrors.map Prod.fst →
      (∀ f' ∈ requiredFieldErrors.map Prod.fst, ∀ v, kvs.lookup f' = some v →
          v.is_string = true) → kvs.lookup f = none := by
    intro f hf hmem hall
    cases hl : kvs.lookup f with
    | none => rfl
    | some v =>
      have hv := hall f hmem v hl
      cases v <;> simp [Json.is_string] at hv
      exact absurd hl (hf _)
  have nstr : ∀ f, ((kvs.lookup f).getD .null).is_string = false →
      ∀ s, kvs.lookup f ≠ some (.str s) := by
    intro f hf s hs
    rw [hs] at hf
    simp [Json.is_string] at hf
  cases hg : ((kvs.lookup "guid").getD .null).is_string with
  | false =>
    exact ⟨[], "guid", _, _, rfl, by simp, nstr _ hg,
      key _ (nstr _ hg) (by decide), e1 hg⟩
  | true =>
  cases hd : ((kvs.lookup "description").getD .null).is_string with
  | false =>
    refine ⟨[_], "description", _, _, rfl, ?_, nstr _ hd, key _ (nstr _ hd) (by decide), e2 hg hd⟩
    intro p hp
    simp only [List.mem_singleton] at hp
    subst hp
    exact (lookup_is_string _ _).1 hg
  | true =>
  cases hn : ((kvs.lookup "name").getD .null).is_string with
  | false =>
    refine ⟨[_, _], "name", _, _, rfl, ?_, nstr _ hn, key _ (nstr _ hn) (by decide), e3 hg hd hn⟩
    intro p hp
    simp only [List.mem_cons, List.mem_singleton, List.not_mem_nil, or_false] at hp
    rcases hp with hp | hp <;> subst hp
    · exact (lookup_is_string _ _).1 hg
    · exact (lookup_is_string _ _).1 hd
  | true =>
  cases hu : ((kvs.lookup "url").getD .null).is_string with
  | false =>
    refine ⟨[_, _, _], "url", _, _, rfl, ?_, nstr _ hu, key _ (nstr _ hu) (by decide), e4 hg hd hn hu⟩
    intro p hp
    simp only [List.mem_cons, List.mem_singleton, List.not_mem_nil, or_false] at hp
    rcases hp with hp | hp | hp <;> subst hp
    · exact (lookup_is_string _ _).1 hg
    · exact (lookup_is_string _ _).1 hd
    · exact (lookup_is_string _ _).1 hn
  | true =>
    exfalso
    obtain ⟨f, hf, hnone⟩ := hmiss
    simp only [requiredFieldErrors, List.map_cons, List.map_nil, List.mem_cons,
      List.not_mem_nil, or_false] at hf
    rcases hf with hf | hf | hf | hf <;> subst hf
    · rw [hnone] at hg; simp [Json.is_string] at hg
    · rw [hnone] at hd; simp [Json.is_string] at hd
    · rw [hnone] at hn; simp [Json.is_string] at hn
    · rw [hnone] at hu; simp [Json.is_string] at hu

/-- C1 (as stated) fails: the empty object lacks all four required fields and is
refused with "Invalid manifest file", which names no field; and an object whose
`guid` is a number and whose `description` is missing is refused with the GUID
error, although `guid` is present. -/
theorem C1_counterexample :
    (sampleEnv.jsonParse textEmptyObject = some (.obj []) ∧
      (∀ f ∈ requiredFieldErrors.map Prod.fst, ([] : List (String × Json)).lookup f = none) ∧
      parseAppManifest sampleEnv textEmptyObject "" =
        .error (.runtime_error "Invalid manifest file") ∧
      Exn.runtime_error "Invalid manifest file" ∉ requiredFieldErrors.map Prod.snd) ∧
    (sampleEnv.jsonParse textGuidNumber = some (.obj jsonGuidNumber) ∧
      jsonGuidNumber.lookup "guid" = some (.num 5) ∧
      jsonGuidNumber.lookup "description" = none ∧
      parseAppManifest sampleEnv textGuidNumber "" =
        .error (.runtime_error "Invalid GUID in the manifest file")) := by
  refine ⟨⟨rfl, fun _ _ => rfl, rfl, by decide⟩, rfl, rfl, rfl, rfl⟩

/-- C1 at a manifest without `description`: the error is the description error. -/
theorem C1_first_invalid_required_field_witness :
    (textNoDescription.isEmpty = false ∧
      sampleEnv.jsonParse textNoDescription = some (.obj jsonNoDescription) ∧
      jsonNoDescription ≠ [] ∧
      ∃ f ∈ requiredFieldErrors.map Prod.fst, jsonNoDescription.lookup f = none) ∧
    ((∃ pre f e post, requiredFieldErrors = pre ++ (f, e) :: post ∧
      (∀ p ∈ pre, ∃ s, jsonNoDescription.lookup p.1 = some (.str s)) ∧
      (∀ s, jsonNoDescription.lookup f ≠ some (.str s)) ∧
      ((∀ f' ∈ requiredFieldErrors.map Prod.fst, ∀ v, jsonNoDescription.lookup f' = some v →
          v.is_string = true) → jsonNoDescription.lookup f = none) ∧
      parseAppManifest sampleEnv textNoDescription "" = .error e) ∧
    (requiredFieldErrors.map Prod.snd).Nodup) :=
  ⟨⟨rfl, rfl, by simp [jsonNoDescription], "description", by decide, rfl⟩,
    C1_first_invalid_required_field sampleEnv textNoDescription "" jsonNoDescription rfl rfl
      (by simp [jsonNoDescription]) ⟨"description", by decide, rfl⟩⟩

/-- C2 (the code at the failing input). A manifest whose `guid`, `description`,
`name` and `url` are all the empty string is parsed, not refused: the result
holds the four empty strings. -/
theorem C2_empty_strings_accepted :
    sampleEnv.jsonParse textEmptyStrings = some (.obj jsonEmptyStrings) ∧
    parseAppManifest sampleEnv textEmptyStrings "" =
      .ok [("guid", .str ""), ("description", .str ""), ("name", .str ""), ("url", .str ""),
        ("local", .bool true), ("appid", .str "@")] :=
  ⟨rfl, rfl⟩

/-- An optional field that is empty or a string is accepted. -/
theorem optString_isSome (v : Json) (h : v.empty = true ∨ v.is_string = true) :
    ∃ o, optString v = some o := by
  rcases v with _ | _ | _ | s | (_ | _) | (_ | _) <;>
    simp [optString, Json.empty, Json.is_string] at h ⊢

/-- C3. Whenever the manifest's `min_api_version` is a string, no parse
succeeds; and when the manifest is otherwise valid (a non-empty object with
string `guid`, `description`, `name`, `url`, and `icon` and `api_version` each
absent, empty or a string) `parseAppManifest` raises "Invalid min_api_version
in the manifest file". -/
theorem C3_min_api_version_string_rejected (env : Env) (content folder : String)
    (json : Json) (m : String)
    (h2 : env.jsonParse content = some json)
    (hmav : json.index "min_api_version" = .ok (.str m)) :
    (∀ app, parseAppManifest env content folder ≠ .ok app) ∧
    (content.isEmpty = false → json.is_object = true → json.empty = false →
      (∃ g, json.index "guid" = .ok (.str g)) →
      (∃ d, json.index "description" = .ok (.str d)) →
      (∃ n, json.index "name" = .ok (.str n)) →
      (∃ u, json.index "url" = .ok (.str u)) →
      (∀ v, json.index "icon" = .ok v → v.empty = true ∨ v.is_string = true) →
      (∀ v, json.index "api_version" = .ok v → v.empty = true ∨ v.is_string = true) →
      parseAppManifest env content folder =
        .error (.runtime_error "Invalid min_api_version in the manifest file")) := by
  constructor
  · intro app h
    obtain ⟨json', g, d, n, u, icon, av, _, h2', _, _, _, _, _, _, _, _, hm, _⟩ :=
      parseAppManifest_ok h
    rw [h2] at h2'
    cases h2'
    rw [hmav] at hm
    simp [Except.toOption, Json.empty] at hm
  · rintro h1 hobj hne ⟨g, hg⟩ ⟨d, hd⟩ ⟨n, hn⟩ ⟨u, hu⟩ hicon hav
    rw [parseAppManifest_required h1 h2 hobj hne hg hd hn hu, hmav]
    rcases json with _ | _ | _ | _ | _ | kvs <;> simp [Json.is_object] at hobj
    obtain ⟨i, hi⟩ := optString_isSome _ (hicon _ rfl)
    obtain ⟨a, ha⟩ := optString_isSome _ (hav _ rfl)
    simp [Json.index, Except.toOption, hi, ha, Json.empty, Json.is_string]

/-- C3 at a valid manifest with `"min_api_version":"6.1"`. -/
theorem C3_min_api_version_string_rejected_witness :
    (sampleEnv.jsonParse textMinApi = some (.obj jsonMinApi) ∧
      (Json.obj jsonMinApi).index "min_api_version" = .ok (.str "6.1")) ∧
    (∀ app, parseAppManifest sampleEnv textMinApi "" ≠ .ok app) ∧
    parseAppManifest sampleEnv textMinApi "" =
      .error (.runtime_error "Invalid min_api_version in the manifest file") :=
  ⟨⟨rfl, rfl⟩,
    (C3_min_api_version_string_rejected sampleEnv textMinApi "" (.obj jsonMinApi) "6.1"
      rfl rfl).1,
    (C3_min_api_version_string_rejected sampleEnv textMinApi "" (.obj jsonMinApi) "6.1"
      rfl rfl).2 rfl rfl rfl ⟨_, rfl⟩ ⟨_, rfl⟩ ⟨_, rfl⟩ ⟨_, rfl⟩
      (fun v hv => by cases hv; exact Or.inl rfl)
      (fun v hv => by cases hv; exact Or.inl rfl)⟩

/-- The entries of the map built from validated fields. -/
theorem manifestMap_values (env : Env) (folder g d n u : String) (icon av : Option String) :
    (manifestMap env folder g d n u icon av).value "guid" = .str g ∧
    (manifestMap env folder g d n u icon av).value "description" = .str d ∧
    (manifestMap env folder g d n u icon av).value "name" = .str n ∧
    (manifestMap env folder g d n u icon av).value "url" = .str (expandLocalUrl env folder u) ∧
    (manifestMap env folder g d n u icon av).value "appid" =
      .str (env.GenerateAppID n (expandLocalUrl env folder u)) ∧
    (manifestMap env folder g d n u icon av).value "icon" =
      (match icon with
        | some i => .str (expandLocalFile env folder i)
        | none => .invalid) ∧
    (manifestMap env folder g d n u icon av).value "api_version" =
      (match av with
        | some a => .str a
        | none => .invalid) ∧
    (manifestMap env folder g d n u icon av).contains "min_api_version" = false := by
  cases icon <;> cases av <;>
    simp [manifestMap, QMap.insert, QMap.value, QMap.contains, List.lookup, QVariant.toString]


/-- C4. On every successful parse the result's `appid` is
`GenerateAppID(name, resolved url)` for the manifest's name and its expanded
url, which are the result's `name` and `url`; so two successful parses (of any
manifests, in any folders) with the same `name` and `url` carry the same
`appid`; and a manifest that differs from a parsed one only in an `appid`
member parses to the same result: the member is never read. -/
theorem C4_appid_from_name_and_url (env : Env) (content folder : String) (app : QMap)
    (h : parseAppManifest env content folder = .ok app) :
    (∃ json n u, env.jsonParse content = some json ∧
      json.index "name" = .ok (.str n) ∧ json.index "url" = .ok (.str u) ∧
      app.value "name" = .str n ∧ app.value "url" = .str (expandLocalUrl env folder u) ∧
      app.value "appid" = .str (env.GenerateAppID n (expandLocalUrl env folder u))) ∧
    app.value "appid" =
      .str (env.GenerateAppID (app.value "name").toString (app.value "url").toString) ∧
    (∀ content' folder' app', parseAppManifest env content' folder' = .ok app' →
      app'.value "name" = app.value "name" → app'.value "url" = app.value "url" →
      app'.value "appid" = app.value "appid") ∧
    (∀ content' kvs kvs', env.jsonParse content = some (.obj kvs) →
      env.jsonParse content' = some (.obj kvs') → content'.isEmpty = false →
      (∀ k, k ≠ "appid" → kvs'.lookup k = kvs.lookup k) →
      parseAppManifest env content' folder = .ok app) := by
  have own : ∀ c f a, parseAppManifest env c f = .ok a →
      a.value "appid" =
        .str (env.GenerateAppID (a.value "name").toString (a.value "url").toString) := by
    intro c f a ha
    obtain ⟨_, g, d, n, u, icon, av, _, _, _, _, _, _, _, _, _, _, _, rfl⟩ :=
      parseAppManifest_ok ha
    obtain ⟨_, _, hn, hu, hid, _⟩ := manifestMap_values env f g d n u icon av
    rw [hid, hn, hu]
    rfl
  obtain ⟨json, g, d, n, u, icon, av, _, hj, hobj, hne, hg, hd, hn, hu, hi, ha, hm, happ⟩ :=
    parseAppManifest_ok h
  obtain ⟨_, _, vn, vu, vid, _⟩ := manifestMap_values env folder g d n u icon av
  refine ⟨⟨json, n, u, hj, hn, hu, ?_, ?_, ?_⟩, own _ _ _ h, ?_, ?_⟩
  · rw [happ, vn]
  · rw [happ, vu]
  · rw [happ, vid]
  · intro content' folder' app' h' en eu
    rw [own _ _ _ h', own _ _ _ h, en, eu]
  · intro content' kvs kvs' hk hk' hc hag
    rw [hk] at hj
    cases hj
    have idx : ∀ k, k ≠ "appid" → (Json.obj kvs').index k = (Json.obj kvs).index k := by
      intro k hk
      simp only [Json.index, hag k hk]
    have hne' : (Json.obj kvs').empty = false := by
      cases kvs' with
      | nil =>
        have := idx "guid" (by decide)
        rw [hg] at this
        simp [Json.index] at this
      | cons _ _ => rfl
    rw [parseAppManifest_required hc hk' rfl hne'
      ((idx _ (by decide)).trans hg) ((idx _ (by decide)).trans hd)
      ((idx _ (by decide)).trans hn) ((idx _ (by decide)).trans hu),
      idx "icon" (by decide), idx "api_version" (by decide),
      idx "min_api_version" (by decide), hi, ha]
    simp only [Json.index, Except.toOption, Option.map_some', Option.some.injEq] at hm ⊢
    simp [hm, happ]

/-- C4 at the manifest `textCalc`: the digest is taken over `Calc` and the
expanded url, and the same manifest with `"appid":"spoofed"` parses to the
same result. -/
theorem C4_appid_from_name_and_url_witness :
    parseAppManifest sampleEnv textCalc "a1" = .ok appCalc ∧
    appCalc.value "appid" =
      .str (sampleEnv.GenerateAppID "Calc" "http://127.0.0.1:8080/a1/index.html") ∧
    parseAppManifest sampleEnv textSpoofedAppid "a1" = .ok appCalc :=
  ⟨rfl,
    (C4_appid_from_name_and_url sampleEnv textCalc "a1" appCalc rfl).2.1,
    (C4_appid_from_name_and_url sampleEnv textCalc "a1" appCalc rfl).2.2.2
      textSpoofedAppid jsonCalc jsonSpoofedAppid rfl rfl rfl
      (fun k hk => by
        have hk2 : (k == "appid") = false := by simpa using hk
        simp [jsonSpoofedAppid, List.lookup, hk2])⟩

/-! ## Theorems: `QString::replace` -/

/-- The characters still to be skipped are dropped without being searched. -/
theorem replaceAux_skip (before after : List Char) (xs ys : List Char) :
    replaceAux before after xs.length (xs ++ ys) = replaceAux before after 0 ys := by
  induction xs with
  | nil => rfl
  | cons x xs ih => simpa [replaceAux] using ih

/-- An occurrence at the front is replaced and the scan goes on behind it. -/
theorem replaceAux_match (before after : List Char) (hne : before ≠ []) (ys : List Char) :
    replaceAux before after 0 (before ++ ys) = after ++ replaceAux before after 0 ys := by
  cases before with
  | nil => exact absurd rfl hne
  | cons c t =>
    have hp : (c :: t).isPrefixOf (c :: (t ++ ys)) = true := by
      rw [List.isPrefixOf_iff_prefix]
      exact ⟨ys, rfl⟩
    show replaceAux (c :: t) after 0 (c :: (t ++ ys)) = _
    simp only [replaceAux, hp, if_true, List.length_cons, Nat.add_sub_cancel]
    exact congrArg _ (replaceAux_skip (c :: t) after t ys)

/-- In front of an occurrence that follows a piece free of the token, no other
occurrence starts. -/
theorem not_prefix_of_piece {tok : List Char} (hb : borderFree tok) (c : Char)
    (p ys : List Char) (hp : ¬ tok <:+: c :: p) :
    ¬ tok <+: c :: p ++ (tok ++ ys) := by
  intro h
  rcases List.prefix_or_prefix_of_prefix h (List.prefix_append (c :: p) (tok ++ ys)) with h1 | h1
  · exact hp h1.isInfix
  · obtain ⟨r, hr⟩ := h1
    have h' : (c :: p) ++ r <+: (c :: p) ++ (tok ++ ys) := by
      rw [hr]
      exact h
    have h'' : r <+: tok ++ ys := (List.prefix_append_right_inj _).1 h'
    have hlen : r.length ≤ tok.length := by
      rw [← hr]
      simp only [List.length_append, List.length_cons]
      omega
    have hr2 : r <+: tok :=
      List.prefix_of_prefix_length_le h'' (List.prefix_append tok ys) hlen
    by_cases hr0 : r = []
    · subst hr0
      rw [List.append_nil] at hr
      exact hp (hr ▸ List.infix_refl _)
    · have := hb r hr0 hr2 ⟨c :: p, hr⟩
      rw [this] at hr
      have : ((c :: p) ++ tok).length = tok.length := congrArg List.length hr
      simp only [List.length_append, List.length_cons] at this
      omega

/-- A piece free of the token is copied, whether an occurrence or the end of
the text follows it. -/
theorem replaceAux_piece {tok : List Char} (after : List Char) (hb : borderFree tok)
    (hne : tok ≠ []) (p : List Char) (hp : ¬ tok <:+: p) :
    replaceAux tok after 0 p = p ∧
    ∀ ys, replaceAux tok after 0 (p ++ (tok ++ ys)) =
      p ++ (after ++ replaceAux tok after 0 ys) := by
  induction p with
  | nil => exact ⟨rfl, fun ys => replaceAux_match tok after hne ys⟩
  | cons c p ih =>
    have hp' : ¬ tok <:+: p := fun h => hp (List.infix_cons h)
    obtain ⟨ih1, ih2⟩ := ih hp'
    have n1 : tok.isPrefixOf (c :: p) = false := by
      rw [Bool.eq_false_iff]
      intro h
      rw [List.isPrefixOf_iff_prefix] at h
      exact hp h.isInfix
    refine ⟨?_, fun ys => ?_⟩
    · simp only [replaceAux, n1, Bool.false_eq_true, if_false, ih1]
    · have n2 : tok.isPrefixOf (c :: (p ++ (tok ++ ys))) = false := by
        rw [Bool.eq_false_iff]
        intro h
        rw [List.isPrefixOf_iff_prefix] at h
        exact not_prefix_of_piece hb c p ys hp h
      show replaceAux tok after 0 (c :: (p ++ (tok ++ ys))) = c :: (p ++ _)
      simp only [replaceAux, n2, Bool.false_eq_true, if_false, ih2]

/-- Replacing in a text cut into pieces free of the token, with the token
between the pieces, puts the new text between the pieces. -/
theorem replaceAux_intercalate {tok : List Char} (after : List Char) (hb : borderFree tok)
    (hne : tok ≠ []) (ps : List (List Char)) (hps : ∀ p ∈ ps, ¬ tok <:+: p) :
    replaceAux tok after 0 (tok.intercalate ps) = after.intercalate ps := by
  induction ps with
  | nil => rfl
  | cons p ps ih =>
    cases ps with
    | nil =>
      simpa [List.intercalate, List.intersperse] using
        (replaceAux_piece after hb hne p (hps p (List.mem_cons_self _ _))).1
    | cons q qs =>
      have ih' := ih (fun x hx => hps x (List.mem_cons_of_mem _ hx))
      have e : ∀ s : List Char, s.intercalate (p :: q :: qs) = p ++ (s ++ s.intercalate (q :: qs)) := by
        intro s
        simp [List.intercalate, List.intersperse]
      rw [e, e, (replaceAux_piece after hb hne p (hps p (List.mem_cons_self _ _))).2, ih']

/-- The placeholder token has no border. -/
theorem borderFree_localapp : borderFree "localapp".data := by
  intro r hr0 hpre hsuf
  have hlen : r.length ≤ 8 := hpre.length_le
  have e1 : r = List.take r.length "localapp".data := (List.prefix_iff_eq_take.1 hpre)
  have e2 : r = List.drop (8 - r.length) "localapp".data := by
    have := List.suffix_iff_eq_drop.1 hsuf
    simpa using this
  generalize hk : r.length = k at *
  have hk0 : k ≠ 0 := by
    intro h0
    subst h0
    exact hr0 (List.length_eq_zero.1 hk)
  have : ∀ k, k ≤ 8 → k ≠ 0 → List.take k "localapp".data = List.drop (8 - k) "localapp".data → k = 8 := by
    decide
  have h8 := this k hlen hk0 (e1.symm.trans e2)
  subst h8
  rw [e1]
  rfl


/-- A text either is free of the token or has a first occurrence, behind a
piece free of the token. -/
theorem first_occurrence (tok : List Char) (hne : tok ≠ []) (u : List Char) :
    (¬ tok <:+: u) ∨ ∃ p rest, u = p ++ (tok ++ rest) ∧ ¬ tok <:+: p := by
  induction u with
  | nil =>
    left
    intro h
    exact hne (List.infix_nil.1 h)
  | cons c u ih =>
    by_cases hpre : tok <+: c :: u
    · obtain ⟨rest, hrest⟩ := hpre
      exact Or.inr ⟨[], rest, hrest.symm, fun h => hne (List.infix_nil.1 h)⟩
    · rcases ih with h | ⟨p, rest, hu, hp⟩
      · left
        intro hin
        rcases List.infix_cons_iff.1 hin with h1 | h1
        · exact hpre h1
        · exact h h1
      · right
        refine ⟨c :: p, rest, by rw [hu]; rfl, ?_⟩
        intro hin
        rcases List.infix_cons_iff.1 hin with h1 | h1
        · apply hpre
          rw [hu]
          exact h1.trans (List.prefix_append (c :: p) (tok ++ rest))
        · exact hp h1

/-- Every text is a sequence of pieces free of the token with the token
between them. -/
theorem exists_pieces (tok : List Char) (hne : tok ≠ []) :
    ∀ (n : Nat) (u : List Char), u.length ≤ n →
      ∃ ps : List (List Char), ps ≠ [] ∧ (∀ p ∈ ps, ¬ tok <:+: p) ∧ u = tok.intercalate ps := by
  intro n
  induction n with
  | zero =>
    intro u hu
    have : u = [] := List.length_eq_zero.1 (Nat.le_zero.1 hu)
    subst this
    refine ⟨[[]], by simp, ?_, by simp [List.intercalate, List.intersperse]⟩
    intro p hp
    simp only [List.mem_singleton] at hp
    subst hp
    exact fun h => hne (List.infix_nil.1 h)
  | succ n ih =>
    intro u hu
    rcases first_occurrence tok hne u with h | ⟨p, rest, hsplit, hp⟩
    · refine ⟨[u], by simp, ?_, by simp [List.intercalate, List.intersperse]⟩
      intro q hq
      simp only [List.mem_singleton] at hq
      subst hq
      exact h
    · have htl : 0 < tok.length := List.length_pos.2 hne
      have hlen : rest.length ≤ n := by
        have := congrArg List.length hsplit
        simp only [List.length_append] at this
        omega
      obtain ⟨ps, hps0, hps, hrest⟩ := ih rest hlen
      refine ⟨p :: ps, by simp, ?_, ?_⟩
      · intro q hq
        rcases List.mem_cons.1 hq with h1 | h1
        · subst h1; exact hp
        · exact hps q h1
      · cases ps with
        | nil => exact absurd rfl hps0
        | cons q qs =>
          rw [hsplit, hrest]
          simp [List.intercalate, List.intersperse]

/-- The url of the scenario, expanded with any replacement text. -/
theorem replace_scenario_url (rep : String) :
    QString.replace "localapp/index.html" "localapp" rep = rep ++ "/index.html" := by
  have h := (replaceAux_piece rep.data borderFree_localapp (by decide) []
    (by decide)).2 "/index.html".data
  show String.mk (replaceAux "localapp".data rep.data 0 "localapp/index.html".data) = _
  have e : "localapp/index.html".data = [] ++ ("localapp".data ++ "/index.html".data) := by decide
  rw [e, h]
  have e2 : replaceAux "localapp".data rep.data 0 "/index.html".data = "/index.html".data := by
    exact (replaceAux_piece rep.data borderFree_localapp (by decide) _ (by decide)).1
  rw [e2]
  rfl

/-! ## Theorems: placeholder expansion in the parsed manifest -/

/-- C5 (as stated) fails: parsed for the base `/apps/a1` (given as the folder
itself, or as the folder `a1` of the store root `/apps`), the scenario manifest
gets an `http://` url on the server address, not `file:///apps/a1/index.html`,
and the digest is taken over that `http://` url. -/
theorem C5_counterexample :
    (parseAppManifest sampleEnv textCalc "/apps/a1" =
        .ok [("guid", .str "a1"), ("description", .str "d"), ("name", .str "Calc"),
          ("url", .str "http://127.0.0.1:8080//apps/a1/index.html"), ("local", .bool true),
          ("appid", .str (sampleEnv.GenerateAppID "Calc"
            "http://127.0.0.1:8080//apps/a1/index.html"))] ∧
      QVariant.str "http://127.0.0.1:8080//apps/a1/index.html" ≠
        .str "file:///apps/a1/index.html") ∧
    (sampleEnv.localAppsPath = "/apps" ∧
      parseAppManifest sampleEnv textCalc "a1" = .ok appCalc ∧
      appCalc.value "url" = .str "http://127.0.0.1:8080/a1/index.html" ∧
      appCalc.value "url" ≠ .str "file:///apps/a1/index.html" ∧
      appCalc.value "appid" =
        .str (sampleEnv.GenerateAppID "Calc" "http://127.0.0.1:8080/a1/index.html")) := by
  refine ⟨⟨rfl, by decide⟩, rfl, rfl, rfl, by decide, rfl⟩

/-- C5 (amended). `parseAppManifest` has no file-access mode for `url`: on every
successful parse for the app folder `F` the result's `url` is the manifest's
url with the token `localapp` replaced by `"http://" + serverAddr + "/" + F`,
and the file-scheme rewriting, rooted at `QDir(localAppsPath).filePath(F)`, is
what a string `icon` gets.  For a manifest with name `Calc` and url
`localapp/index.html` the result has url `http://<serverAddr>/<F>/index.html`
and appid `GenerateAppID("Calc", that url)`. -/
theorem C5_url_http_icon_file (env : Env) (content folder : String) (app : QMap)
    (h : parseAppManifest env content folder = .ok app) :
    ∃ json u, env.jsonParse content = some json ∧ json.index "url" = .ok (.str u) ∧
      app.value "url" =
        .str (QString.replace u "localapp" ("http://" ++ env.serverAddr ++ "/" ++ folder)) ∧
      (∀ i, json.index "icon" = .ok (.str i) →
        app.value "icon" =
          .str (QString.replace i "localapp"
            ("file:///" ++ QDir.filePath env.localAppsPath folder))) ∧
      (json.index "name" = .ok (.str "Calc") → u = "localapp/index.html" →
        app.value "url" =
          .str ("http://" ++ env.serverAddr ++ "/" ++ folder ++ "/index.html") ∧
        app.value "appid" =
          .str (env.GenerateAppID "Calc"
            ("http://" ++ env.serverAddr ++ "/" ++ folder ++ "/index.html"))) := by
  obtain ⟨json, g, d, n, u, icon, av, _, hj, hobj, hne, hg, hd, hn, hu, hi, ha, hm, happ⟩ :=
    parseAppManifest_ok h
  obtain ⟨_, _, vn, vu, vid, vicon, _⟩ := manifestMap_values env folder g d n u icon av
  subst happ
  refine ⟨json, u, hj, hu, vu, ?_, ?_⟩
  · intro i hic
    rw [hic] at hi
    have : icon = some i := by
      simpa [Except.toOption, optString, Json.empty] using hi.symm
    subst this
    exact vicon
  · intro hname hurl
    rw [hn] at hname
    cases hname
    subst hurl
    rw [vu, vid]
    constructor <;> simp only [expandLocalUrl, replace_scenario_url]

/-- C5 at the scenario manifest with an icon, parsed for the folder `a1`. -/
theorem C5_url_http_icon_file_witness :
    parseAppManifest sampleEnv textCalcIcon "a1" = .ok appCalcIcon ∧
    ∃ json u, sampleEnv.jsonParse textCalcIcon = some json ∧
      json.index "url" = .ok (.str u) ∧
      appCalcIcon.value "url" =
        .str (QString.replace u "localapp" ("http://" ++ sampleEnv.serverAddr ++ "/" ++ "a1")) ∧
      (∀ i, json.index "icon" = .ok (.str i) →
        appCalcIcon.value "icon" =
          .str (QString.replace i "localapp"
            ("file:///" ++ QDir.filePath sampleEnv.localAppsPath "a1"))) ∧
      (json.index "name" = .ok (.str "Calc") → u = "localapp/index.html" →
        appCalcIcon.value "url" =
          .str ("http://" ++ sampleEnv.serverAddr ++ "/" ++ "a1" ++ "/index.html") ∧
        appCalcIcon.value "appid" =
          .str (sampleEnv.GenerateAppID "Calc"
            ("http://" ++ sampleEnv.serverAddr ++ "/" ++ "a1" ++ "/index.html"))) :=
  ⟨rfl, C5_url_http_icon_file sampleEnv textCalcIcon "a1" appCalcIcon rfl⟩

/-- C6. On every successful parse with server address `S` and app folder `F`
the result's `url` is the manifest's url with the token `localapp` replaced by
`"http://" + S + "/" + F`: the url is a sequence of pieces free of the token
with the token between them, and for every such reading of it the result is
the same pieces with `"http://" + S + "/" + F` between them; a url without an
occurrence of the token is returned unchanged. -/
theorem C6_url_expanded_for_server (env : Env) (content folder : String) (app : QMap)
    (h : parseAppManifest env content folder = .ok app) :
    ∃ json u, env.jsonParse content = some json ∧ json.index "url" = .ok (.str u) ∧
      app.value "url" =
        .str (QString.replace u "localapp" ("http://" ++ env.serverAddr ++ "/" ++ folder)) ∧
      (∃ ps : List (List Char), ps ≠ [] ∧ (∀ p ∈ ps, ¬ "localapp".data <:+: p) ∧
        u.data = "localapp".data.intercalate ps) ∧
      (∀ ps : List (List Char), (∀ p ∈ ps, ¬ "localapp".data <:+: p) →
        u.data = "localapp".data.intercalate ps →
        app.value "url" =
          .str (String.mk
            (("http://" ++ env.serverAddr ++ "/" ++ folder).data.intercalate ps))) ∧
      (¬ "localapp".data <:+: u.data → app.value "url" = .str u) := by
  obtain ⟨json, g, d, n, u, icon, av, _, hj, hobj, hne, hg, hd, hn, hu, hi, ha, hm, happ⟩ :=
    parseAppManifest_ok h
  obtain ⟨_, _, vn, vu, vid, vicon, _⟩ := manifestMap_values env folder g d n u icon av
  subst happ
  refine ⟨json, u, hj, hu, vu, exists_pieces _ (by decide) _ _ (Nat.le_refl _), ?_, ?_⟩
  · intro ps hps hsplit
    rw [vu]
    show QVariant.str (String.mk (replaceAux "localapp".data _ 0 u.data)) = _
    rw [hsplit, replaceAux_intercalate _ borderFree_localapp (by decide) ps hps]
  · intro hno
    rw [vu]
    show QVariant.str (String.mk (replaceAux "localapp".data _ 0 u.data)) = _
    rw [(replaceAux_piece _ borderFree_localapp (by decide) u.data hno).1]

/-- C6 at the scenario manifest, parsed for the folder `a1` with the server at
`127.0.0.1:8080`: the url is the piece `/index.html` behind one occurrence. -/
theorem C6_url_expanded_for_server_witness :
    parseAppManifest sampleEnv textCalc "a1" = .ok appCalc ∧
    appCalc.value "url" = .str "http://127.0.0.1:8080/a1/index.html" := by
  refine ⟨rfl, ?_⟩
  obtain ⟨json, u, hj, hu, _, _, hall, _⟩ :=
    C6_url_expanded_for_server sampleEnv textCalc "a1" appCalc rfl
  have hj' : sampleEnv.jsonParse textCalc = some (.obj jsonCalc) := rfl
  rw [hj'] at hj
  cases hj
  have hu' : (Json.obj jsonCalc).index "url" = .ok (.str "localapp/index.html") := rfl
  rw [hu'] at hu
  cases hu
  exact hall [[], "/index.html".data] (by decide) (by decide)

/-! ## Theorems: the archive installer -/

/-- Entries that are not `manifest.json` leave `guid` and `appName` as they are. -/
theorem scan_no_manifest (env : Env) (entries : List ZipEntry) (acc : String × String)
    (hno : ∀ e ∈ entries, e.name ≠ "manifest.json") :
    installFromBuffer.scan env entries acc = .ok acc := by
  induction entries with
  | nil => rfl
  | cons e es ih =>
    have he : e.name ≠ "manifest.json" := hno e (List.mem_cons_self _ _)
    simp only [installFromBuffer.scan, he, if_false]
    exact ih (fun x hx => hno x (List.mem_cons_of_mem _ hx))

/-- C7. For every archive (a device that opens as a zip) without an entry named
`manifest.json`, `installFromBuffer` throws `std::runtime_error("Invalid DApp
archive")` and leaves the file system as it was: no directory is created or
removed. -/
theorem C7_no_manifest_invalid_archive (env : Env) (fs : FileSystem) (ioDevice : IODevice)
    (entries : List ZipEntry) (hzip : ioDevice.zip = some entries)
    (hno : ∀ e ∈ entries, e.name ≠ "manifest.json") :
    installFromBuffer env fs ioDevice =
      (.error (.runtime_error "Invalid DApp archive"), fs) := by
  simp only [installFromBuffer, hzip, scan_no_manifest env entries ("", "") hno]
  rfl

namespace FileSystem

/-- A directory that was set holds the files it was set to. -/
theorem lookup_setDir (path : String) (fl : List File) (fs : FileSystem) :
    (fs.setDir path fl).lookup path = some fl := by
  induction fs with
  | nil => simp [setDir, List.lookup]
  | cons d fs ih =>
    obtain ⟨p, old⟩ := d
    by_cases hp : p = path
    · simp [setDir, hp, List.lookup]
    · have : (path == p) = false := by simpa using fun h => hp h.symm
      simp [setDir, hp, List.lookup, this, ih]

/-- A directory that was erased is not there. -/
theorem lookup_eraseDir (path : String) (fs : FileSystem) :
    (fs.eraseDir path).lookup path = none := by
  induction fs with
  | nil => rfl
  | cons d fs ih =>
    obtain ⟨p, old⟩ := d
    by_cases hp : p = path
    · simpa [eraseDir, hp] using ih
    · have : (path == p) = false := by simpa using fun h => hp h.symm
      simp only [eraseDir, hp, if_false, List.lookup, this]
      exact ih

end FileSystem


/-- A scan that ends with a non-empty id has seen an entry. -/
theorem scan_entries_ne_nil (env : Env) (entries : List ZipEntry) (X appName : String)
    (hscan : installFromBuffer.scan env entries ("", "") = .ok (X, appName))
    (hX : X.isEmpty = false) : entries ≠ [] := by
  intro h
  subst h
  simp only [installFromBuffer.scan, Except.ok.injEq, Prod.mk.injEq] at hscan
  rw [← hscan.1] at hX
  exact absurd hX (by decide)

/-- The state after a successful reinstall. -/
theorem installFromBuffer_reinstall (env : Env) (fs : FileSystem) (ioDevice : IODevice)
    (entries : List ZipEntry) (X appName : String)
    (hzip : ioDevice.zip = some entries)
    (hscan : installFromBuffer.scan env entries ("", "") = .ok (X, appName))
    (hX : X.isEmpty = false)
    (hex : fs.dirExists (QDir.filePath env.localAppsPath X) = true)
    (hrm : env.removeFails (QDir.filePath env.localAppsPath X) = none)
    (hext : env.extractFails (QDir.filePath env.localAppsPath X) = false) :
    installFromBuffer env fs ioDevice =
      (.ok appName,
        ((fs.eraseDir (QDir.filePath env.localAppsPath X)).setDir
          (QDir.filePath env.localAppsPath X) []).setDir
          (QDir.filePath env.localAppsPath X) (extractedFiles entries)) := by
  have hne := scan_entries_ne_nil env entries X appName hscan hX
  have hmk : (fs.eraseDir (QDir.filePath env.localAppsPath X)).mkdir env.localAppsPath X =
      (fs.eraseDir (QDir.filePath env.localAppsPath X)).setDir
        (QDir.filePath env.localAppsPath X) [] := by
    simp [FileSystem.mkdir, FileSystem.dirExists, FileSystem.lookup_eraseDir]
  have hnew : (List.map Prod.fst (extractedFiles entries)).isEmpty = false := by
    cases entries with
    | nil => exact absurd rfl hne
    | cons e es => rfl
  simp only [installFromBuffer, hzip, hscan, hX, hex, FileSystem.removeRecursively, hrm,
    if_true, Bool.false_eq_true, if_false, Bool.not_true, hmk, JlCompress.extractDir, hext,
    FileSystem.files, FileSystem.lookup_setDir, Option.getD_some, List.filter_nil,
    List.append_nil, hnew]

/-- C8. For every archive whose manifest scan ends with the id `X` (non-empty)
and the name `appName`, if the directory of `X` exists in the local store and
its removal and the extraction both succeed, `installFromBuffer` returns
`appName` and afterwards the directory of `X` exists and holds exactly the
files extracted from the archive: a file of the previous install that the
archive does not write is gone. -/
theorem C8_reinstall_replaces_contents (env : Env) (fs : FileSystem) (ioDevice : IODevice)
    (entries : List ZipEntry) (X appName : String)
    (hzip : ioDevice.zip = some entries)
    (hscan : installFromBuffer.scan env entries ("", "") = .ok (X, appName))
    (hX : X.isEmpty = false)
    (hex : fs.dirExists (QDir.filePath env.localAppsPath X) = true)
    (hrm : env.removeFails (QDir.filePath env.localAppsPath X) = none)
    (hext : env.extractFails (QDir.filePath env.localAppsPath X) = false) :
    (installFromBuffer env fs ioDevice).1 = .ok appName ∧
    (installFromBuffer env fs ioDevice).2.dirExists (QDir.filePath env.localAppsPath X) = true ∧
    (installFromBuffer env fs ioDevice).2.files (QDir.filePath env.localAppsPath X) =
      extractedFiles entries ∧
    ∀ f ∈ fs.files (QDir.filePath env.localAppsPath X), f ∉ extractedFiles entries →
      f ∉ (installFromBuffer env fs ioDevice).2.files (QDir.filePath env.localAppsPath X) := by
  rw [installFromBuffer_reinstall env fs ioDevice entries X appName hzip hscan hX hex hrm hext]
  have hfiles : (((fs.eraseDir (QDir.filePath env.localAppsPath X)).setDir
      (QDir.filePath env.localAppsPath X) []).setDir
      (QDir.filePath env.localAppsPath X) (extractedFiles entries)).files
        (QDir.filePath env.localAppsPath X) = extractedFiles entries := by
    simp only [FileSystem.files, FileSystem.lookup_setDir, Option.getD_some]
  refine ⟨rfl, ?_, hfiles, ?_⟩
  · simp only [FileSystem.dirExists, FileSystem.lookup_setDir, Option.isSome_some]
  · intro f _ hf
    show f ∉ FileSystem.files _ _
    rw [hfiles]
    exact hf

/-- C8 at `sampleArchive` installed over `sampleStore`: the directory of `a1`
holds the manifest and the page, and `old.js` is gone. -/
theorem C8_reinstall_replaces_contents_witness :
    (installFromBuffer.scan sampleEnv sampleArchive ("", "") = .ok ("a1", "Calc") ∧
      sampleStore.dirExists "/apps/a1" = true ∧
      ("old.js", "var x;", true) ∈ sampleStore.files "/apps/a1") ∧
    (installFromBuffer sampleEnv sampleStore ⟨some sampleArchive⟩).1 = .ok "Calc" ∧
    (installFromBuffer sampleEnv sampleStore ⟨some sampleArchive⟩).2.files "/apps/a1" =
      [("manifest.json", textCalc, true), ("index.html", "<html></html>", true)] ∧
    ("old.js", "var x;", true) ∉
      (installFromBuffer sampleEnv sampleStore ⟨some sampleArchive⟩).2.files "/apps/a1" :=
  ⟨⟨rfl, rfl, by decide⟩,
    (C8_reinstall_replaces_contents sampleEnv sampleStore ⟨some sampleArchive⟩ sampleArchive
      "a1" "Calc" rfl rfl rfl rfl rfl rfl).1,
    (C8_reinstall_replaces_contents sampleEnv sampleStore ⟨some sampleArchive⟩ sampleArchive
      "a1" "Calc" rfl rfl rfl rfl rfl rfl).2.2.1,
    (C8_reinstall_replaces_contents sampleEnv sampleStore ⟨some sampleArchive⟩ sampleArchive
      "a1" "Calc" rfl rfl rfl rfl rfl rfl).2.2.2 _ (by decide) (by decide)⟩

/-- C7 at an archive with two entries, none of them the manifest. -/
theorem C7_no_manifest_invalid_archive_witness :
    (∀ e ∈ sampleArchiveNoManifest, e.name ≠ "manifest.json") ∧
    installFromBuffer sampleEnv sampleStore ⟨some sampleArchiveNoManifest⟩ =
      (.error (.runtime_error "Invalid DApp archive"), sampleStore) :=
  ⟨by decide,
    C7_no_manifest_invalid_archive sampleEnv sampleStore ⟨some sampleArchiveNoManifest⟩
      sampleArchiveNoManifest rfl (by decide)⟩

/-! ## Theorems: the registry callback -/

/-- C9. When the `view_dapps` callback is delivered with a non-empty error
string, then for every cached list, every output and either state of the guard
the view-model's fields (`_apps` among them) are unchanged, no signal is
emitted (so no `appsChanged`) and no exception leaves the callback. -/
theorem C9_error_leaves_apps_unchanged (env : Env) (fs : FileSystem) (guard : Bool)
    (st : State) (err output : String) (herr : err.isEmpty = false) :
    loadApps.callback env fs guard st err output = ⟨st, [], none⟩ ∧
    (loadApps.callback env fs guard st err output).state._apps = st._apps ∧
    Signal.appsChanged ∉ (loadApps.callback env fs guard st err output).emitted := by
  have h : loadApps.callback env fs guard st err output = ⟨st, [], none⟩ := by
    cases guard <;> simp [loadApps.callback, herr]
  rw [h]
  exact ⟨rfl, rfl, List.not_mem_nil _⟩

/-- C9 at the error `timeout`, with a response that would otherwise be read. -/
theorem C9_error_leaves_apps_unchanged_witness :
    "timeout".isEmpty = false ∧
    loadApps.callback sampleEnv sampleStore true sampleState "timeout" textDappsBadEntry =
      ⟨sampleState, [], none⟩ :=
  ⟨rfl, (C9_error_leaves_apps_unchanged sampleEnv sampleStore true sampleState "timeout"
    textDappsBadEntry rfl).1⟩

/-- A sequence of two steps succeeds only if the first one does. -/
theorem bind_eq_ok {α β : Type} {x : Except Exn α} {f : α → Except Exn β} {b : β}
    (h : (x >>= f) = .ok b) : ∃ a, x = .ok a ∧ f a = .ok b := by
  cases x with
  | error e => simp [bind, Except.bind] at h
  | ok a => exact ⟨a, rfl, h⟩

/-- `parseStringField` returns exactly the string values. -/
theorem parseStringField_ok {json : Json} {fieldName s : String}
    (h : parseStringField json fieldName = .ok s) : json.index fieldName = .ok (.str s) := by
  unfold parseStringField at h
  obtain ⟨field, hf, h⟩ := bind_eq_ok h
  rw [hf]
  rcases field with _ | _ | _ | t | _ | _ <;>
    simp [Json.is_string, Json.get_string, bind, Except.bind, throw, throwThe,
      MonadExceptOf.throw, pure, Except.pure] at h
  rw [h]

/-- An item that is merged is an object with all seven string fields. -/
theorem loadApps_item_ok {env : Env} {fs : FileSystem} {key : String} {value : Json}
    {app : QMap} (h : loadApps.item env fs key value = .ok app) :
    value.is_object = true ∧ ∀ f ∈ registryFields, ∃ s, value.index f = .ok (.str s) := by
  unfold loadApps.item at h
  cases hobj : value.is_object with
  | false => simp [hobj, bind, Except.bind, throw, throwThe, MonadExceptOf.throw] at h
  | true =>
    simp only [hobj, Bool.not_true, Bool.false_eq_true, if_false, pure, Except.pure,
      bind, Except.bind] at h
    refine ⟨rfl, ?_⟩
    cases h1 : parseStringField value "id" with
    | error e => simp [h1] at h
    | ok a1 =>
    cases h2 : parseStringField value "publisher" with
    | error e => simp [h1, h2] at h
    | ok a2 =>
    cases h3 : parseStringField value "description" with
    | error e => simp [h1, h2, h3] at h
    | ok a3 =>
    cases h4 : parseStringField value "name" with
    | error e => simp [h1, h2, h3, h4] at h
    | ok a4 =>
    cases h5 : parseStringField value "ipfs_id" with
    | error e => simp [h1, h2, h3, h4, h5] at h
    | ok a5 =>
    cases h6 : parseStringField value "api_ver" with
    | error e => simp [h1, h2, h3, h4, h5, h6] at h
    | ok a6 =>
    cases h7 : parseStringField value "min_api_ver" with
    | error e => simp [h1, h2, h3, h4, h5, h6, h7] at h
    | ok a7 =>
    intro f hf
    simp only [registryFields, List.mem_cons, List.mem_singleton, List.not_mem_nil,
      or_false] at hf
    rcases hf with hf | hf | hf | hf | hf | hf | hf <;> subst hf
    · exact ⟨_, parseStringField_ok h1⟩
    · exact ⟨_, parseStringField_ok h2⟩
    · exact ⟨_, parseStringField_ok h3⟩
    · exact ⟨_, parseStringField_ok h4⟩
    · exact ⟨_, parseStringField_ok h5⟩
    · exact ⟨_, parseStringField_ok h6⟩
    · exact ⟨_, parseStringField_ok h7⟩

/-- A loop that runs to its end has merged every item. -/
theorem loadApps_loop_ok {env : Env} {fs : FileSystem} :
    ∀ (items : List (String × Json)) (apps r : List QMap),
      loadApps.loop env fs items apps = .ok r →
      ∀ kv ∈ items, ∃ app, loadApps.item env fs kv.1 kv.2 = .ok app := by
  intro items
  induction items with
  | nil => intro _ _ _ kv hkv; exact absurd hkv (List.not_mem_nil _)
  | cons it rest ih =>
    intro apps r h kv hkv
    obtain ⟨key, value⟩ := it
    simp only [loadApps.loop] at h
    obtain ⟨app, hitem, hrest⟩ := bind_eq_ok h
    rcases List.mem_cons.1 hkv with hk | hk
    · subst hk
      exact ⟨app, hitem⟩
    · exact ih _ _ hrest kv hk

/-- Every element of an array is the value of one of its items. -/
theorem mem_items_of_mem (xs : List Json) (x : Json) (hx : x ∈ xs) :
    ∃ key, (key, x) ∈ (Json.arr xs).items := by
  have gen : ∀ (ys : List Json) (n : Nat), x ∈ ys →
      ∃ key, (key, x) ∈ (ys.enumFrom n).map (fun p => (toString p.1, p.2)) := by
    intro ys
    induction ys with
    | nil => intro _ h; exact absurd h (List.not_mem_nil _)
    | cons y ys ih =>
      intro n h
      rcases List.mem_cons.1 h with h1 | h1
      · subst h1
        exact ⟨toString n, by simp [List.enumFrom]⟩
      · obtain ⟨key, hkey⟩ := ih (n + 1) h1
        exact ⟨key, by
          simp only [List.enumFrom, List.map_cons, List.mem_cons]
          exact Or.inr hkey⟩
  exact gen xs 0 hx


/-- The callback changes the fields and emits a signal only when its `try`
block reaches the assignment. -/
theorem loadApps_callback_unchanged (env : Env) (fs : FileSystem) (guard : Bool) (st : State)
    (err output : String) (h : ∀ apps, loadApps.tryBlock env fs output ≠ .ok apps) :
    (loadApps.callback env fs guard st err output).state = st ∧
    (loadApps.callback env fs guard st err output).emitted = [] := by
  unfold loadApps.callback
  cases guard
  · exact ⟨rfl, rfl⟩
  · cases err.isEmpty
    · exact ⟨rfl, rfl⟩
    · cases ht : loadApps.tryBlock env fs output with
      | ok apps => exact absurd ht (h apps)
      | error e => cases e <;> exact ⟨rfl, rfl⟩

/-- C10. If an entry of the `dapps` array of a registry response is not an
object, or lacks a string value for one of `id`, `publisher`, `description`,
`name`, `ipfs_id`, `api_ver`, `min_api_ver`, the refresh is discarded wherever
the entry stands in the array: the view-model's fields (`_apps` among them)
keep their values and no signal (so no `appsChanged`) is emitted. -/
theorem C10_bad_entry_discards_refresh (env : Env) (fs : FileSystem) (guard : Bool)
    (st : State) (err output : String) (json : Json) (xs : List Json)
    (hparse : env.jsonParse output = some json)
    (hd : json.index "dapps" = .ok (.arr xs))
    (hbad : ∃ x ∈ xs, x.is_object = false ∨
      ∃ f ∈ registryFields, ∀ s, x.index f ≠ .ok (.str s)) :
    (loadApps.callback env fs guard st err output).state = st ∧
    (loadApps.callback env fs guard st err output).state._apps = st._apps ∧
    (loadApps.callback env fs guard st err output).emitted = [] := by
  have key : ∀ apps, loadApps.tryBlock env fs output ≠ .ok apps := by
    intro apps h
    unfold loadApps.tryBlock at h
    simp only [hparse, pure, Except.pure, bind, Except.bind] at h
    cases hc : (json.empty || !json.is_object) with
    | true => simp [hc, throw, throwThe, MonadExceptOf.throw] at h
    | false =>
      simp only [hc, Bool.false_eq_true, if_false, hd] at h
      cases hc2 : ((Json.arr xs).empty || !(Json.arr xs).is_array) with
      | true => simp [hc2, throw, throwThe, MonadExceptOf.throw] at h
      | false =>
        simp only [hc2, Bool.false_eq_true, if_false] at h
        obtain ⟨x, hx, hxbad⟩ := hbad
        obtain ⟨k, hk⟩ := mem_items_of_mem xs x hx
        obtain ⟨app, happ⟩ := loadApps_loop_ok _ _ _ h (k, x) hk
        obtain ⟨hobj, hfields⟩ := loadApps_item_ok happ
        rcases hxbad with hno | ⟨f, hf, hnf⟩
        · rw [hobj] at hno
          exact Bool.noConfusion hno
        · obtain ⟨s, hs⟩ := hfields f hf
          exact hnf s hs
  obtain ⟨h1, h2⟩ := loadApps_callback_unchanged env fs guard st err output key
  exact ⟨h1, by rw [h1], h2⟩

/-- C10 at a response whose second entry has no `ipfs_id`: the first, valid
entry is not added to the cached list. -/
theorem C10_bad_entry_discards_refresh_witness :
    (sampleEnv.jsonParse textDappsBadEntry = some (.obj [("dapps", .arr jsonDappsBadEntry)]) ∧
      ∃ x ∈ jsonDappsBadEntry, x.is_object = false ∨
        ∃ f ∈ registryFields, ∀ s, x.index f ≠ .ok (.str s)) ∧
    (loadApps.callback sampleEnv sampleStore true sampleState "" textDappsBadEntry).state =
      sampleState ∧
    (loadApps.callback sampleEnv sampleStore true sampleState "" textDappsBadEntry).emitted =
      [] :=
  have hbad : ∃ x ∈ jsonDappsBadEntry, x.is_object = false ∨
      ∃ f ∈ registryFields, ∀ s, x.index f ≠ .ok (.str s) :=
    ⟨_, List.mem_cons_of_mem _ (List.mem_cons_self _ _),
      Or.inr ⟨"ipfs_id", by decide, fun s hs => by cases hs⟩⟩
  ⟨⟨rfl, hbad⟩,
    (C10_bad_entry_discards_refresh sampleEnv sampleStore true sampleState ""
      textDappsBadEntry _ jsonDappsBadEntry rfl rfl hbad).1,
    (C10_bad_entry_discards_refresh sampleEnv sampleStore true sampleState ""
      textDappsBadEntry _ jsonDappsBadEntry rfl rfl hbad).2.2⟩

/-- `parseStringField` on a string field. -/
theorem parseStringField_of_index {json : Json} {fieldName s : String}
    (h : json.index fieldName = .ok (.str s)) : parseStringField json fieldName = .ok s := by
  simp [parseStringField, h, bind, Except.bind, pure, Except.pure, Json.is_string, Json.get_string]

/-- The loop body on an entry with all seven string fields: the merged record,
unless the local lookup lets an exception through. -/
theorem loadApps_item_valid (env : Env) (fs : FileSystem) (key : String) (value : Json)
    (guid publisher description name ipfs_id api_ver min_api_ver : String)
    (hobj : value.is_object = true)
    (h1 : value.index "id" = .ok (.str guid))
    (h2 : value.index "publisher" = .ok (.str publisher))
    (h3 : value.index "description" = .ok (.str description))
    (h4 : value.index "name" = .ok (.str name))
    (h5 : value.index "ipfs_id" = .ok (.str ipfs_id))
    (h6 : value.index "api_ver" = .ok (.str api_ver))
    (h7 : value.index "min_api_ver" = .ok (.str min_api_ver)) :
    loadApps.item env fs key value =
      match loadLocalDapp env fs guid with
      | .ok localApp =>
        .ok (mergedRecord guid publisher description name ipfs_id api_ver min_api_ver localApp)
      | .error e => .error e := by
  unfold loadApps.item
  simp only [hobj, parseStringField_of_index h1, parseStringField_of_index h2,
    parseStringField_of_index h3, parseStringField_of_index h4, parseStringField_of_index h5,
    parseStringField_of_index h6, parseStringField_of_index h7, bind, Except.bind,
    Bool.not_true, Bool.false_eq_true, if_false, pure, Except.pure]
  cases loadLocalDapp env fs guid with
  | error e => rfl
  | ok localApp =>
    cases hl : localApp.isEmpty <;> simp [mergedRecord, hl]

/-- The marks of a merged record. -/
theorem mergedRecord_values (guid publisher description name ipfs_id api_ver min_api_ver : String)
    (localApp : QMap) :
    (mergedRecord guid publisher description name ipfs_id api_ver min_api_ver localApp).value
      "guid" = .str guid ∧
    (mergedRecord guid publisher description name ipfs_id api_ver min_api_ver localApp).value
      "name" = .str name ∧
    (mergedRecord guid publisher description name ipfs_id api_ver min_api_ver localApp).value
      "ipfs_id" = .str ipfs_id ∧
    (localApp.isEmpty = true →
      (mergedRecord guid publisher description name ipfs_id api_ver min_api_ver localApp).value
        "notInstalled" = .bool true ∧
      (mergedRecord guid publisher description name ipfs_id api_ver min_api_ver
        localApp).contains "appid" = false) ∧
    (localApp.isEmpty = false →
      (mergedRecord guid publisher description name ipfs_id api_ver min_api_ver
        localApp).contains "notInstalled" = false ∧
      (mergedRecord guid publisher description name ipfs_id api_ver min_api_ver
        localApp).contains "appid" = true ∧
      (mergedRecord guid publisher description name ipfs_id api_ver min_api_ver localApp).value
        "appid" = localApp.value "appid") := by
  cases hl : localApp.isEmpty <;>
    simp [mergedRecord, hl, QMap.insert, QMap.value, QMap.contains, List.lookup]


/-- Inserting under one key leaves the value under another key. -/
theorem QMap.value_insert_ne (m : QMap) (k k' : String) (v : QVariant) (h : k ≠ k') :
    (QMap.insert k v m).value k' = m.value k' := by
  induction m with
  | nil =>
    have : (k' == k) = false := by simpa using fun e => h e.symm
    simp [QMap.insert, QMap.value, List.lookup, this]
  | cons kv m ih =>
    obtain ⟨a, b⟩ := kv
    by_cases ha : a = k
    · subst ha
      have : (k' == a) = false := by simpa using fun e => h e.symm
      simp [QMap.insert, QMap.value, List.lookup, this]
    · simp only [QMap.insert, ha, if_false, QMap.value, List.lookup]
      cases hk : (k' == a) with
      | true => rfl
      | false => exact ih

/-- An insertion leaves a non-empty map. -/
theorem QMap.insert_isEmpty (m : QMap) (k : String) (v : QVariant) :
    (QMap.insert k v m).isEmpty = false := by
  cases m with
  | nil => rfl
  | cons kv m =>
    obtain ⟨a, b⟩ := kv
    by_cases ha : a = k <;> simp [QMap.insert, ha]

/-- The local lookup resolves exactly when the directory exists, its manifest
file opens and the manifest parses; the result is the parsed manifest with its
`full_path`. -/
theorem loadLocalDapp_resolves {env : Env} {fs : FileSystem} {guid : String} {localApp : QMap}
    (h : loadLocalDapp env fs guid = .ok localApp) (hne : localApp.isEmpty = false) :
    fs.dirExists (QDir.filePath env.localAppsPath guid) = true ∧
    ∃ content m, fs.readFile (QDir.filePath env.localAppsPath guid) "manifest.json" =
        some content ∧
      parseAppManifest env content guid = .ok m ∧
      localApp = m.insert "full_path" (.str (QDir.filePath env.localAppsPath guid)) := by
  unfold loadLocalDapp at h
  cases hd : fs.dirExists (QDir.filePath env.localAppsPath guid) with
  | false =>
    simp [hd, bind, Except.bind, pure, Except.pure] at h
    subst h
    simp at hne
  | true =>
    refine ⟨rfl, ?_⟩
    cases hr : fs.readFile (QDir.filePath env.localAppsPath guid) "manifest.json" with
    | none =>
      simp [hd, hr, bind, Except.bind, throw, throwThe, MonadExceptOf.throw] at h
      subst h
      simp at hne
    | some content =>
      cases hp : parseAppManifest env content guid with
      | error e =>
        cases e <;>
          simp [hd, hr, hp, bind, Except.bind, pure, Except.pure] at h
        subst h
        simp at hne
      | ok m =>
        simp [hd, hr, hp, bind, Except.bind, pure, Except.pure] at h
        exact ⟨content, m, rfl, hp, h.symm⟩

/-- The local lookup of an installed app with a valid manifest. -/
theorem loadLocalDapp_of_manifest {env : Env} {fs : FileSystem} {guid content : String}
    {m : QMap}
    (hd : fs.dirExists (QDir.filePath env.localAppsPath guid) = true)
    (hr : fs.readFile (QDir.filePath env.localAppsPath guid) "manifest.json" = some content)
    (hp : parseAppManifest env content guid = .ok m) :
    loadLocalDapp env fs guid =
      .ok (m.insert "full_path" (.str (QDir.filePath env.localAppsPath guid))) := by
  simp [loadLocalDapp, hd, hr, hp, bind, Except.bind, pure, Except.pure]

/-- The local lookup of an app whose directory is absent. -/
theorem loadLocalDapp_absent {env : Env} {fs : FileSystem} {guid : String}
    (hd : fs.dirExists (QDir.filePath env.localAppsPath guid) = false) :
    loadLocalDapp env fs guid = .ok [] := by
  simp [loadLocalDapp, hd, bind, Except.bind, pure, Except.pure]

/-- A loop that runs to its end has appended one record per item, in order. -/
theorem loadApps_loop_forall2 {env : Env} {fs : FileSystem} :
    ∀ (items : List (String × Json)) (apps r : List QMap),
      loadApps.loop env fs items apps = .ok r →
      ∃ rs, r = apps ++ rs ∧
        List.Forall₂ (fun kv app => loadApps.item env fs kv.1 kv.2 = .ok app) items rs := by
  intro items
  induction items with
  | nil =>
    intro apps r h
    simp only [loadApps.loop, Except.ok.injEq] at h
    exact ⟨[], by simp [h], List.Forall₂.nil⟩
  | cons it rest ih =>
    intro apps r h
    obtain ⟨key, value⟩ := it
    simp only [loadApps.loop] at h
    obtain ⟨app, hitem, hrest⟩ := bind_eq_ok h
    obtain ⟨rs, hr, hall⟩ := ih _ _ hrest
    exact ⟨app :: rs, by simp [hr], List.Forall₂.cons hitem hall⟩

/-- The items of an array stand for its elements, in order. -/
theorem forall2_items_arr (R : String → Json → QMap → Prop) (xs : List Json) (rs : List QMap)
    (h : List.Forall₂ (fun kv app => R kv.1 kv.2 app) (Json.arr xs).items rs) :
    List.Forall₂ (fun x app => ∃ key, R key x app) xs rs := by
  have gen : ∀ (ys : List Json) (n : Nat) (rs : List QMap),
      List.Forall₂ (fun kv app => R kv.1 kv.2 app)
        ((ys.enumFrom n).map (fun p => (toString p.1, p.2))) rs →
      List.Forall₂ (fun x app => ∃ key, R key x app) ys rs := by
    intro ys
    induction ys with
    | nil =>
      intro n rs h
      cases h
      exact List.Forall₂.nil
    | cons y ys ih =>
      intro n rs h
      simp only [List.enumFrom, List.map_cons] at h
      cases h with
      | cons h1 h2 => exact List.Forall₂.cons ⟨_, h1⟩ (ih _ _ h2)
  exact gen xs 0 rs h

/-- A `try` block that reaches the assignment has read a non-empty `dapps` array
and run the loop over it. -/
theorem loadApps_tryBlock_ok {env : Env} {fs : FileSystem} {output : String}
    {apps : List QMap} (h : loadApps.tryBlock env fs output = .ok apps) :
    ∃ json xs, env.jsonParse output = some json ∧ json.index "dapps" = .ok (.arr xs) ∧
      xs ≠ [] ∧ loadApps.loop env fs (Json.arr xs).items [] = .ok apps := by
  unfold loadApps.tryBlock at h
  cases hp : env.jsonParse output with
  | none => simp [hp, bind, Except.bind, throw, throwThe, MonadExceptOf.throw] at h
  | some json =>
    simp only [hp, pure, Except.pure, bind, Except.bind] at h
    cases hc : (json.empty || !json.is_object) with
    | true => simp [hc, throw, throwThe, MonadExceptOf.throw] at h
    | false =>
      simp only [hc, Bool.false_eq_true, if_false] at h
      cases hd : json.index "dapps" with
      | error e => simp [hd] at h
      | ok dapps =>
        simp only [hd] at h
        cases hc2 : (dapps.empty || !dapps.is_array) with
        | true => simp [hc2, throw, throwThe, MonadExceptOf.throw] at h
        | false =>
          simp only [hc2, Bool.false_eq_true, if_false] at h
          rcases dapps with _ | _ | _ | _ | xs | _ <;>
            simp [Json.empty, Json.is_array] at hc2
          refine ⟨json, xs, rfl, hd, ?_, h⟩
          intro hxs
          exact hc2 hxs

/-- What the loop body returns for an item it merges. -/
theorem loadApps_item_merged {env : Env} {fs : FileSystem} {key : String} {value : Json}
    {app : QMap} (h : loadApps.item env fs key value = .ok app) :
    ∃ guid publisher description name ipfs_id api_ver min_api_ver localApp,
      value.index "id" = .ok (.str guid) ∧ value.index "name" = .ok (.str name) ∧
      value.index "ipfs_id" = .ok (.str ipfs_id) ∧
      loadLocalDapp env fs guid = .ok localApp ∧
      app = mergedRecord guid publisher description name ipfs_id api_ver min_api_ver
        localApp := by
  obtain ⟨hobj, hf⟩ := loadApps_item_ok h
  obtain ⟨guid, h1⟩ := hf "id" (by decide)
  obtain ⟨publisher, h2⟩ := hf "publisher" (by decide)
  obtain ⟨description, h3⟩ := hf "description" (by decide)
  obtain ⟨name, h4⟩ := hf "name" (by decide)
  obtain ⟨ipfs_id, h5⟩ := hf "ipfs_id" (by decide)
  obtain ⟨api_ver, h6⟩ := hf "api_ver" (by decide)
  obtain ⟨min_api_ver, h7⟩ := hf "min_api_ver" (by decide)
  rw [loadApps_item_valid env fs key value guid publisher description name ipfs_id api_ver
    min_api_ver hobj h1 h2 h3 h4 h5 h6 h7] at h
  cases hl : loadLocalDapp env fs guid with
  | error e => simp [hl] at h
  | ok localApp =>
    simp only [hl, Except.ok.injEq] at h
    exact ⟨guid, publisher, description, name, ipfs_id, api_ver, min_api_ver, localApp,
      h1, h4, h5, hl, h.symm⟩

/-- Whenever the `loadApps` callback reaches the assignment to `_apps`, the new
list has one record per entry of `dapps`, in order, and the record of an entry
with id `guid` is marked by the result of `loadLocalDapp(guid)`: when that
result is empty the record has `notInstalled = true` and no `appid`; when it
is not empty (the directory exists, its manifest opens and parses) the record
has no `notInstalled` key and its `appid` is the one of the locally parsed
manifest. -/
theorem loadApps_records_marked (env : Env) (fs : FileSystem) (st : State)
    (output : String) (apps : List QMap)
    (h : loadApps.tryBlock env fs output = .ok apps) :
    (loadApps.callback env fs true st "" output).state._apps = apps ∧
    ∃ json xs, env.jsonParse output = some json ∧ json.index "dapps" = .ok (.arr xs) ∧
      List.Forall₂ (fun x app => ∃ guid localApp,
        x.index "id" = .ok (.str guid) ∧ app.value "guid" = .str guid ∧
        loadLocalDapp env fs guid = .ok localApp ∧
        (localApp.isEmpty = true →
          app.value "notInstalled" = .bool true ∧ app.contains "appid" = false) ∧
        (localApp.isEmpty = false →
          app.contains "notInstalled" = false ∧ app.contains "appid" = true ∧
          ∃ content m,
            fs.readFile (QDir.filePath env.localAppsPath guid) "manifest.json" =
              some content ∧
            parseAppManifest env content guid = .ok m ∧
            app.value "appid" = m.value "appid")) xs apps := by
  have hempty : "".isEmpty = true := rfl
  refine ⟨by simp [loadApps.callback, h, hempty], ?_⟩
  obtain ⟨json, xs, hj, hd, _, hloop⟩ := loadApps_tryBlock_ok h
  refine ⟨json, xs, hj, hd, ?_⟩
  obtain ⟨rs, hrs, hall⟩ := loadApps_loop_forall2 _ _ _ hloop
  simp only [List.nil_append] at hrs
  subst hrs
  have hall' := forall2_items_arr
    (fun key x app => loadApps.item env fs key x = .ok app) xs apps hall
  refine hall'.imp ?_
  rintro x app ⟨key, hitem⟩
  obtain ⟨guid, publisher, description, name, ipfs_id, api_ver, min_api_ver, localApp,
    h1, _, _, hl, rfl⟩ := loadApps_item_merged hitem
  obtain ⟨vg, _, _, vempty, vfull⟩ :=
    mergedRecord_values guid publisher description name ipfs_id api_ver min_api_ver localApp
  refine ⟨guid, localApp, h1, vg, hl, vempty, ?_⟩
  intro hne
  obtain ⟨c1, c2, c3⟩ := vfull hne
  obtain ⟨_, content, m, hr, hp, hm⟩ := loadLocalDapp_resolves hl hne
  refine ⟨c1, c2, content, m, hr, hp, ?_⟩
  rw [c3, hm]
  exact QMap.value_insert_ne m "full_path" "appid" _ (by decide)


/-- The marks at a response with `a1` (installed in `sampleStore`, with a
manifest that parses) and `c9` (no directory): the first record carries the
digest of the local manifest, the second is marked `notInstalled`. -/
theorem loadApps_records_marked_example :
    loadApps.tryBlock sampleEnv sampleStore textDappsTwo = .ok sampleMerged ∧
    (loadApps.callback sampleEnv sampleStore true sampleState "" textDappsTwo).state._apps =
      sampleMerged ∧
    ∃ json xs, sampleEnv.jsonParse textDappsTwo = some json ∧
      json.index "dapps" = .ok (.arr xs) ∧
      List.Forall₂ (fun x app => ∃ guid localApp,
        x.index "id" = .ok (.str guid) ∧ app.value "guid" = .str guid ∧
        loadLocalDapp sampleEnv sampleStore guid = .ok localApp ∧
        (localApp.isEmpty = true →
          app.value "notInstalled" = .bool true ∧ app.contains "appid" = false) ∧
        (localApp.isEmpty = false →
          app.contains "notInstalled" = false ∧ app.contains "appid" = true ∧
          ∃ content m,
            sampleStore.readFile (QDir.filePath sampleEnv.localAppsPath guid) "manifest.json" =
              some content ∧
            parseAppManifest sampleEnv content guid = .ok m ∧
            app.value "appid" = m.value "appid")) xs sampleMerged :=
  ⟨rfl, loadApps_records_marked sampleEnv sampleStore sampleState textDappsTwo
    sampleMerged rfl⟩

/-- C11 (the code at the failing input). The response with the entries `a1` and
`c9` is structurally valid, and `a1` has a directory whose `manifest.json`
is not JSON, so that `loadLocalDapp("a1")` does not resolve to a manifest.
There is no merged record for `a1` marked `notInstalled`, and none for `c9`
either: the `parse_error` of the JSON library leaves `loadLocalDapp`, the loop
and the callback, and the cached list stays as it was. -/
theorem C11_unparsable_local_manifest_no_record :
    sampleEnv.jsonParse textDappsTwo =
      some (.obj [("dapps", .arr [jsonEntryCalc, jsonEntryGo])]) ∧
    sampleStoreCorrupt.dirExists (QDir.filePath sampleEnv.localAppsPath "a1") = true ∧
    loadLocalDapp sampleEnv sampleStoreCorrupt "a1" = .error .json_parse_error ∧
    loadApps.item sampleEnv sampleStoreCorrupt "0" jsonEntryCalc = .error .json_parse_error ∧
    loadApps.tryBlock sampleEnv sampleStoreCorrupt textDappsTwo = .error .json_parse_error ∧
    loadApps.callback sampleEnv sampleStoreCorrupt true sampleState "" textDappsTwo =
      ⟨sampleState, [], some .json_parse_error⟩ := by
  refine ⟨rfl, rfl, rfl, rfl, rfl, rfl⟩

/-- C12 (as stated) fails: on the response of the scenario, whose `dapps` is an
object with the key `0`, with an empty error, a live view-model and no
directory for `a1`, the callback leaves the cached list as it was and emits
nothing. -/
theorem C12_counterexample :
    sampleEnv.jsonParse textDappsObject =
      some (.obj [("dapps", .obj [("0", jsonEntryCalc)])]) ∧
    sampleStoreWithoutA1.dirExists (QDir.filePath sampleEnv.localAppsPath "a1") = false ∧
    loadApps.callback sampleEnv sampleStoreWithoutA1 true sampleState "" textDappsObject =
      ⟨sampleState, [], none⟩ ∧
    sampleState._apps ≠
      [mergedRecord "a1" "p1" "d" "Calc" "cid123" "1.0" "1.0" []] := by
  refine ⟨rfl, rfl, rfl, by decide⟩

/-- C12 (amended). Given a registry response whose `dapps` is the array with the
one entry of the scenario (id `a1`, publisher `p1`, description `d`, name
`Calc`, ipfs_id `cid123`, api_ver and min_api_ver `1.0`), an empty error, a
live view-model and no directory for `a1` in the local store, the callback
replaces the cached list with exactly one merged record, with guid `a1`, name
`Calc` and ipfs_id `cid123`, marked `notInstalled` and without `appid`, and
emits `appsChanged`. -/
theorem C12_array_response_one_record (env : Env) (fs : FileSystem) (st : State)
    (output : String) (json : Json)
    (hparse : env.jsonParse output = some json) (hobj : json.is_object = true)
    (hd : json.index "dapps" = .ok (.arr [jsonEntryCalc]))
    (hlocal : fs.dirExists (QDir.filePath env.localAppsPath "a1") = false) :
    loadApps.callback env fs true st "" output =
      ⟨⟨[mergedRecord "a1" "p1" "d" "Calc" "cid123" "1.0" "1.0" []], st._publisherKey⟩,
        [.appsChanged], none⟩ ∧
    (mergedRecord "a1" "p1" "d" "Calc" "cid123" "1.0" "1.0" []).value "guid" = .str "a1" ∧
    (mergedRecord "a1" "p1" "d" "Calc" "cid123" "1.0" "1.0" []).value "name" = .str "Calc" ∧
    (mergedRecord "a1" "p1" "d" "Calc" "cid123" "1.0" "1.0" []).value "ipfs_id" =
      .str "cid123" ∧
    (mergedRecord "a1" "p1" "d" "Calc" "cid123" "1.0" "1.0" []).value "notInstalled" =
      .bool true ∧
    (mergedRecord "a1" "p1" "d" "Calc" "cid123" "1.0" "1.0" []).contains "appid" = false := by
  have hne : json.empty = false := by
    rcases json with _ | _ | _ | _ | _ | kvs <;> simp [Json.is_object] at hobj
    cases kvs with
    | nil => simp [Json.index] at hd
    | cons _ _ => rfl
  have hitem : loadApps.item env fs "0" jsonEntryCalc =
      .ok (mergedRecord "a1" "p1" "d" "Calc" "cid123" "1.0" "1.0" []) := by
    rw [loadApps_item_valid env fs "0" jsonEntryCalc "a1" "p1" "d" "Calc" "cid123" "1.0" "1.0"
      rfl rfl rfl rfl rfl rfl rfl rfl, loadLocalDapp_absent hlocal]
  have htry : loadApps.tryBlock env fs output =
      .ok [mergedRecord "a1" "p1" "d" "Calc" "cid123" "1.0" "1.0" []] := by
    unfold loadApps.tryBlock
    simp only [hparse, hne, hobj, hd, bind, Except.bind, pure, Except.pure, Bool.not_true,
      Bool.or_false, Bool.false_eq_true, if_false]
    show loadApps.loop env fs [("0", jsonEntryCalc)] [] = _
    simp only [loadApps.loop, hitem, bind, Except.bind, List.nil_append]
  have hempty : "".isEmpty = true := rfl
  refine ⟨by simp [loadApps.callback, htry, hempty], ?_⟩
  decide

/-- C12 (amended) at the array response over a store without `a1`. -/
theorem C12_array_response_one_record_witness :
    (sampleEnv.jsonParse textDappsArray = some (.obj [("dapps", .arr [jsonEntryCalc])]) ∧
      sampleStoreWithoutA1.dirExists (QDir.filePath sampleEnv.localAppsPath "a1") = false) ∧
    loadApps.callback sampleEnv sampleStoreWithoutA1 true sampleState "" textDappsArray =
      ⟨⟨[mergedRecord "a1" "p1" "d" "Calc" "cid123" "1.0" "1.0" []], ""⟩,
        [.appsChanged], none⟩ :=
  ⟨⟨rfl, rfl⟩,
    (C12_array_response_one_record sampleEnv sampleStoreWithoutA1 sampleState textDappsArray
      _ rfl rfl rfl rfl).1⟩

/-! ## Theorems: the publisher key -/

/-- A `try` block of the `get_pk` callback that reaches the assignment has read
a string `pk`. -/
theorem getPublisherKey_tryBlock_ok {env : Env} {output pk : String}
    (h : getPublisherKey.tryBlock env output = .ok pk) :
    ∃ json, env.jsonParse output = some json ∧ json.index "pk" = .ok (.str pk) := by
  unfold getPublisherKey.tryBlock at h
  cases hp : env.jsonParse output with
  | none => simp [hp, bind, Except.bind, throw, throwThe, MonadExceptOf.throw] at h
  | some json =>
    simp only [hp, pure, Except.pure, bind, Except.bind] at h
    cases hc : (json.empty || !json.is_object) with
    | true => simp [hc, throw, throwThe, MonadExceptOf.throw] at h
    | false =>
      simp only [hc, Bool.false_eq_true, if_false] at h
      cases hd : json.index "pk" with
      | error e => simp [hd] at h
      | ok v =>
        simp only [hd] at h
        rcases v with _ | _ | _ | s | _ | _ <;>
          simp [Json.is_string, Json.get_string, throw, throwThe, MonadExceptOf.throw] at h
        exact ⟨json, rfl, by rw [← h]; exact hd⟩

/-- The `try` block of the `get_pk` callback on a response that holds a string
`pk`. -/
theorem getPublisherKey_tryBlock_of_pk {env : Env} {output pk : String} {json : Json}
    (hj : env.jsonParse output = some json) (hpk : json.index "pk" = .ok (.str pk)) :
    getPublisherKey.tryBlock env output = .ok pk := by
  rcases json with _ | _ | _ | _ | _ | kvs <;> simp [Json.index] at hpk
  cases kvs with
  | nil => simp at hpk
  | cons kv kvs =>
    simp [getPublisherKey.tryBlock, hj, Json.index, hpk, bind, Except.bind, pure, Except.pure,
      Json.empty, Json.is_object, Json.is_string, Json.get_string]

/-- C13 (as stated) fails: two calls made while the key is empty issue two
requests; the first response stores `K1`, the second response, with the empty
`pk`, replaces it, and the next call returns the empty key, not `K1`, and
issues a request again. -/
theorem C13_counterexample :
    getPublisherKey ⟨[], ""⟩ = ("", ["role=manager,action=get_pk,cid=" ++ getDappStoreCID]) ∧
    getPublisherKey.callback sampleEnv true ⟨[], ""⟩ "" textPkK1 =
      ⟨⟨[], "K1"⟩, [.publisherKeyChanged], none⟩ ∧
    getPublisherKey ⟨[], "K1"⟩ = ("K1", []) ∧
    getPublisherKey.callback sampleEnv true ⟨[], "K1"⟩ "" textPkEmpty =
      ⟨⟨[], ""⟩, [.publisherKeyChanged], none⟩ ∧
    getPublisherKey ⟨[], ""⟩ ≠ ("K1", []) := by
  refine ⟨rfl, rfl, rfl, rfl, by decide⟩

/-- C13 (amended). A `getPublisherKey` call made while the stored key is not
empty returns it and issues no contract invocation; a call made while it is
empty issues one `get_pk` request.  The stored key changes only in a `get_pk`
callback that runs with a live guard, an empty error and a response holding a
string `pk`; every such callback stores that `pk`, whatever it is and whatever
was stored before, and emits `publisherKeyChanged`; so an empty key stays
empty after a failed response, an unparsable one or one whose `pk` is the
empty string. -/
theorem C13_publisher_key_cache (env : Env) (st : State) :
    (st._publisherKey.isEmpty = false → getPublisherKey st = (st._publisherKey, [])) ∧
    (st._publisherKey.isEmpty = true →
      getPublisherKey st =
        (st._publisherKey, ["role=manager,action=get_pk,cid=" ++ getDappStoreCID])) ∧
    (∀ guard err output,
      (getPublisherKey.callback env guard st err output).state._apps = st._apps ∧
      ((getPublisherKey.callback env guard st err output).state = st ∨
        (guard = true ∧ err.isEmpty = true ∧
          ∃ json pk, env.jsonParse output = some json ∧ json.index "pk" = .ok (.str pk) ∧
            (getPublisherKey.callback env guard st err output).state._publisherKey = pk))) ∧
    (∀ guard err output, st._publisherKey.isEmpty = true →
      (err.isEmpty = false ∨ env.jsonParse output = none ∨
        (∃ json, env.jsonParse output = some json ∧ json.index "pk" = .ok (.str ""))) →
      (getPublisherKey.callback env guard st err output).state._publisherKey.isEmpty =
        true) ∧
    (∀ err output json pk, err.isEmpty = true → env.jsonParse output = some json →
      json.index "pk" = .ok (.str pk) →
      getPublisherKey.callback env true st err output =
        ⟨⟨st._apps, pk⟩, [.publisherKeyChanged], none⟩) := by
  have step : ∀ guard err output,
      (getPublisherKey.callback env guard st err output).state._apps = st._apps ∧
      ((getPublisherKey.callback env guard st err output).state = st ∨
        (guard = true ∧ err.isEmpty = true ∧
          ∃ json pk, env.jsonParse output = some json ∧ json.index "pk" = .ok (.str pk) ∧
            (getPublisherKey.callback env guard st err output).state._publisherKey = pk)) := by
    intro guard err output
    unfold getPublisherKey.callback
    cases guard
    · exact ⟨rfl, Or.inl rfl⟩
    · cases he : err.isEmpty
      · exact ⟨rfl, Or.inl rfl⟩
      · cases ht : getPublisherKey.tryBlock env output with
        | error e => cases e <;> exact ⟨rfl, Or.inl rfl⟩
        | ok pk =>
          obtain ⟨json, hj, hpk⟩ := getPublisherKey_tryBlock_ok ht
          exact ⟨rfl, Or.inr ⟨rfl, rfl, json, pk, hj, hpk, rfl⟩⟩
  refine ⟨?_, ?_, step, ?_, ?_⟩
  rotate_left 3
  · intro err output json pk he hj hpk
    simp [getPublisherKey.callback, he, getPublisherKey_tryBlock_of_pk hj hpk]
  · intro h
    simp [getPublisherKey, h]
  · intro h
    simp [getPublisherKey, h]
  · intro guard err output hkey hfail
    rcases (step guard err output).2 with hs | ⟨_, he, json, pk, hj, hpk, hnew⟩
    · rw [hs]
      exact hkey
    · rcases hfail with hf | hf | ⟨json', hj', hpk'⟩
      · rw [he] at hf
        exact absurd hf (by decide)
      · rw [hj] at hf
        exact absurd hf (by simp)
      · rw [hj] at hj'
        cases hj'
        rw [hpk] at hpk'
        cases hpk'
        rw [hnew]
        rfl

/-- C13 (amended) at a view-model whose key `K1` is stored: the call returns
`K1` without a request, and a response with the empty `pk` is stored over it. -/
theorem C13_publisher_key_cache_witness :
    getPublisherKey ⟨[], "K1"⟩ = ("K1", []) ∧
    (("".isEmpty = true ∧ sampleEnv.jsonParse textPkEmpty = some (.obj [("pk", .str "")]) ∧
        (Json.obj [("pk", .str "")]).index "pk" = .ok (.str "")) ∧
      getPublisherKey.callback sampleEnv true ⟨[], "K1"⟩ "" textPkEmpty =
        ⟨⟨[], ""⟩, [.publisherKeyChanged], none⟩) :=
  ⟨(C13_publisher_key_cache sampleEnv ⟨[], "K1"⟩).1 rfl,
    ⟨rfl, rfl, rfl⟩,
    (C13_publisher_key_cache sampleEnv ⟨[], "K1"⟩).2.2.2.2 "" textPkEmpty _ "" rfl rfl rfl⟩

/-! ## Theorems: exceptions that are not `std::runtime_error` -/

/-- C14 (the code at the failing input). With a directory for `a1` whose
`manifest.json` opens and holds text that is not JSON, `loadLocalDapp("a1")`
does not return the empty result: the `parse_error` of the JSON library leaves
the function, and with it the `loadApps` callback that asked for `a1`, which
ends without a new list and without a signal. -/
theorem C14_parse_error_escapes_loadLocalDapp :
    sampleStoreCorrupt.dirExists (QDir.filePath sampleEnv.localAppsPath "a1") = true ∧
    sampleStoreCorrupt.readFile (QDir.filePath sampleEnv.localAppsPath "a1") "manifest.json" =
      some "not json" ∧
    sampleEnv.jsonParse "not json" = none ∧
    loadLocalDapp sampleEnv sampleStoreCorrupt "a1" = .error .json_parse_error ∧
    loadApps.callback sampleEnv sampleStoreCorrupt true sampleState "" textDappsArray =
      ⟨sampleState, [], some .json_parse_error⟩ := by
  refine ⟨rfl, rfl, rfl, rfl, rfl⟩

/-- C15 (the code at the failing input). When the content fetched for `Calc` is
an archive whose `manifest.json` is not JSON, the success callback of
`installApp` emits neither `appInstallFail` nor `appInstallOK`: the
`parse_error` of the JSON library leaves the callback. -/
theorem C15_parse_error_escapes_install_callback :
    installApp.find ⟨sampleMerged, ""⟩ "a1" = some ("cid123", "Calc") ∧
    installFromBuffer sampleEnv sampleStore ⟨some sampleArchiveCorrupt⟩ =
      (.error .json_parse_error, sampleStore) ∧
    installApp.onData sampleEnv sampleStore true ⟨sampleMerged, ""⟩ "Calc"
        ⟨some sampleArchiveCorrupt⟩ =
      (⟨⟨sampleMerged, ""⟩, [], some .json_parse_error⟩, sampleStore) := by
  refine ⟨rfl, rfl, rfl⟩

/-- C17 (the code at the failing input). The error callback `installApp` passes
to the content store emits `appInstallFail` also when the view-model is gone:
it never tests the guard. -/
theorem C17_get_error_callback_ignores_guard (st : State) (appName err : String) :
    installApp.onError false st appName err = ⟨st, [.appInstallFail appName], none⟩ ∧
    (installApp.onError false st appName err).emitted ≠ [] := by
  refine ⟨rfl, ?_⟩
  simp [installApp.onError]


/-- With a dead guard the guarded callbacks leave the fields alone, emit
nothing and issue nothing; the error callback of `uploadApp` only logs. -/
theorem guarded_callbacks_noop (env : Env) (fs : FileSystem) (st : State)
    (err output appName ipfsID : String) (app : QMap) (ioDevice : IODevice) :
    loadApps.callback env fs false st err output = ⟨st, [], none⟩ ∧
    getPublisherKey.callback env false st err output = ⟨st, [], none⟩ ∧
    addAppToStore.callback false st err output = ⟨st, [], none⟩ ∧
    registerPublisher.callback false st err output = ⟨st, [], none⟩ ∧
    uploadApp.onAdded false st app ipfsID = (⟨st, [], none⟩, []) ∧
    uploadApp.onError st err = ⟨st, [], none⟩ ∧
    installApp.onData env fs false st appName ioDevice = (⟨st, [], none⟩, fs) :=
  ⟨rfl, rfl, rfl, rfl, rfl, rfl, rfl⟩

/-- A `std::runtime_error` of the installer is reported as `appInstallFail`. -/
theorem installApp_onData_runtime_error (env : Env) (fs fs' : FileSystem) (st : State)
    (appName what : String) (ioDevice : IODevice)
    (h : installFromBuffer env fs ioDevice = (.error (.runtime_error what), fs')) :
    installApp.onData env fs true st appName ioDevice =
      (⟨st, [.appInstallFail appName], none⟩, fs') := by
  simp [installApp.onData, h]

/-! ## Theorems: the manifest entry of an archive -/

/-- C18. For every input on which `parseAppManifest` succeeds the result has
no `min_api_version` key; hence, for every content id, the argument string
`addAppToStore` builds from the parsed manifest ends with `,min_api_ver=`
followed by nothing. -/
theorem C18_min_api_ver_published_empty (env : Env) (content folder : String) (app : QMap)
    (h : parseAppManifest env content folder = .ok app) :
    app.contains "min_api_version" = false ∧
    (app.value "min_api_version").toString = "" ∧
    ∀ ipfsID : String, ∃ front : String,
      addAppToStore.args app ipfsID = front ++ ",min_api_ver=" ∧
      front = "role=manager,action=add_dapp,cid=" ++ getDappStoreCID ++ ",ipfs_id=" ++ ipfsID ++
        ",name=" ++ (app.value "name").toString ++ ",id=" ++ (app.value "guid").toString ++
        ",description=" ++ (app.value "description").toString ++
        ",api_ver=" ++ (app.value "api_version").toString := by
  obtain ⟨json, g, d, n, u, icon, av, _, _, _, _, _, _, _, _, _, _, _, happ⟩ :=
    parseAppManifest_ok h
  obtain ⟨_, _, _, _, _, _, _, hc⟩ := manifestMap_values env folder g d n u icon av
  subst happ
  have hv : ((manifestMap env folder g d n u icon av).value "min_api_version").toString =
      "" := by
    simp only [QMap.contains] at hc
    simp only [QMap.value]
    cases hl : List.lookup "min_api_version" (manifestMap env folder g d n u icon av) with
    | none => rfl
    | some v => rw [hl] at hc; simp at hc
  refine ⟨hc, hv, fun ipfsID => ⟨_, ?_, rfl⟩⟩
  simp only [addAppToStore.args, hv, String.append_empty]

/-- C18 at the manifest `textCalc`, published with the content id `cid123`. -/
theorem C18_min_api_ver_published_empty_witness :
    parseAppManifest sampleEnv textCalc "" =
      .ok [("guid", .str "a1"), ("description", .str "d"), ("name", .str "Calc"),
        ("url", .str "http://127.0.0.1:8080//index.html"), ("local", .bool true),
        ("appid", .str "Calc@http://127.0.0.1:8080//index.html")] ∧
    ∃ front : String,
      addAppToStore.args [("guid", .str "a1"), ("description", .str "d"), ("name", .str "Calc"),
        ("url", .str "http://127.0.0.1:8080//index.html"), ("local", .bool true),
        ("appid", .str "Calc@http://127.0.0.1:8080//index.html")] "cid123" =
        front ++ ",min_api_ver=" := by
  refine ⟨rfl, ?_⟩
  obtain ⟨front, hfront, _⟩ :=
    (C18_min_api_ver_published_empty sampleEnv textCalc "" _ rfl).2.2 "cid123"
  exact ⟨front, hfront⟩

/-- The loop appends one record per item. -/
theorem loadApps_loop_length {env : Env} {fs : FileSystem} :
    ∀ (items : List (String × Json)) (apps r : List QMap),
      loadApps.loop env fs items apps = .ok r → r.length = apps.length + items.length := by
  intro items apps r h
  obtain ⟨rs, hr, hall⟩ := loadApps_loop_forall2 items apps r h
  rw [hr, List.length_append, hall.length_eq]

/-- C19. A registry response that parses, with `dapps` an empty array, is
handled like an invalid response: for every cached list the fields (`_apps`
among them) are unchanged and nothing (so no `appsChanged`) is emitted; and
for every response at all, a callback that leaves `_apps` empty had it empty
before: a refresh never replaces a non-empty cached list by the empty list. -/
theorem C19_empty_dapps_discarded (env : Env) (fs : FileSystem) (guard : Bool) (st : State)
    (err output : String) :
    (∀ json, env.jsonParse output = some json → json.index "dapps" = .ok (.arr []) →
      (loadApps.callback env fs guard st err output).state = st ∧
      (loadApps.callback env fs guard st err output).emitted = []) ∧
    ((loadApps.callback env fs guard st err output).state._apps = [] → st._apps = []) := by
  constructor
  · intro json hj hd
    apply loadApps_callback_unchanged
    intro apps h
    obtain ⟨json', xs, hj', hd', hne, _⟩ := loadApps_tryBlock_ok h
    rw [hj] at hj'
    cases hj'
    rw [hd] at hd'
    cases hd'
    exact hne rfl
  · intro hres
    unfold loadApps.callback at hres
    cases guard
    · exact hres
    · cases he : err.isEmpty
      · simpa [he] using hres
      · cases ht : loadApps.tryBlock env fs output with
        | error e =>
          cases e <;> simpa [he, ht] using hres
        | ok apps =>
          simp only [he, ht, Bool.not_true, Bool.false_eq_true, if_false] at hres
          obtain ⟨json, xs, _, _, hne, hloop⟩ := loadApps_tryBlock_ok ht
          have hlen := loadApps_loop_length _ _ _ hloop
          have hxs : 0 < ((Json.arr xs).items).length := by
            cases xs with
            | nil => exact absurd rfl hne
            | cons x xs => simp [Json.items, List.enum, List.enumFrom]
          have : apps = [] := hres
          rw [this] at hlen
          simp only [List.length_nil, Nat.zero_add] at hlen
          omega

/-- C19 at the response with an empty `dapps` array and a cached list of one app. -/
theorem C19_empty_dapps_discarded_witness :
    sampleEnv.jsonParse textDappsEmpty = some (.obj [("dapps", .arr [])]) ∧
    sampleState._apps ≠ [] ∧
    (loadApps.callback sampleEnv sampleStore true sampleState "" textDappsEmpty).state =
      sampleState ∧
    (loadApps.callback sampleEnv sampleStore true sampleState "" textDappsEmpty).emitted = [] :=
  ⟨rfl, by decide,
    ((C19_empty_dapps_discarded sampleEnv sampleStore true sampleState "" textDappsEmpty).1
      _ rfl rfl).1,
    ((C19_empty_dapps_discarded sampleEnv sampleStore true sampleState "" textDappsEmpty).1
      _ rfl rfl).2⟩


/-- The loop strips the slashes in front of a text that starts with none. -/
theorem stripSlashes_replicate (n : Nat) (cs : List Char) (h : cs.head? ≠ some '/') :
    stripSlashes (List.replicate n '/' ++ cs) = cs := by
  induction n with
  | zero =>
    cases cs with
    | nil => rfl
    | cons c cs =>
      have hc : c ≠ '/' := fun e => h (by rw [e]; rfl)
      simp [stripSlashes, hc]
  | succ n ih =>
    simpa [List.replicate_succ, stripSlashes] using ih

/-- The loop ends after at most as many rounds as the text has characters: it
removes a run of slashes from the front and leaves a text that starts with
none. -/
theorem stripSlashes_spec (cs : List Char) :
    ∃ k, k ≤ cs.length ∧ cs = List.replicate k '/' ++ stripSlashes cs ∧
      (stripSlashes cs).head? ≠ some '/' := by
  induction cs with
  | nil => exact ⟨0, Nat.le_refl _, rfl, by simp [stripSlashes]⟩
  | cons c cs ih =>
    by_cases hc : c = '/'
    · obtain ⟨k, hk, hsplit, hhead⟩ := ih
      refine ⟨k + 1, by simpa using hk, ?_, ?_⟩
      · simp only [stripSlashes, hc, if_true, List.replicate_succ, List.cons_append]
        rw [← hsplit]
      · simpa [stripSlashes, hc] using hhead
    · refine ⟨0, Nat.zero_le _, by simp [stripSlashes, hc], ?_⟩
      simp [stripSlashes, hc]

/-- C20. The file name `installFromFile` opens (build without `WIN32`): for
every `n` and every `r` that does not start with a slash, `file:` followed by
`n` slashes and `r` becomes `/` followed by `r`; a name that does not start
with `file:` is used unchanged; and the slash-stripping loop ends on every
text, after removing a run of at most its length of slashes. -/
theorem C20_file_name_normalised :
    (∀ (n : Nat) (r : String), r.data.head? ≠ some '/' →
      installFromFile.fname ("file:" ++ String.mk (List.replicate n '/') ++ r) = "/" ++ r) ∧
    (∀ s : String, ¬ "file:".data <+: s.data → installFromFile.fname s = s) ∧
    (∀ cs : List Char, ∃ k, k ≤ cs.length ∧ cs = List.replicate k '/' ++ stripSlashes cs ∧
      (stripSlashes cs).head? ≠ some '/') := by
  refine ⟨?_, ?_, stripSlashes_spec⟩
  · intro n r hr
    have hdata : ("file:" ++ String.mk (List.replicate n '/') ++ r).data =
        "file:".data ++ (List.replicate n '/' ++ r.data) := by
      simp [String.data_append]
    have hpre : "file:".data.isPrefixOf
        ("file:" ++ String.mk (List.replicate n '/') ++ r).data = true := by
      rw [hdata, List.isPrefixOf_iff_prefix]
      exact List.prefix_append _ _
    have hdrop : ("file:" ++ String.mk (List.replicate n '/') ++ r).data.drop 5 =
        List.replicate n '/' ++ r.data := by
      rw [hdata]
      rfl
    simp only [installFromFile.fname, hpre, if_true, hdrop, stripSlashes_replicate n r.data hr]
    rfl
  · intro s hs
    have hpre : "file:".data.isPrefixOf s.data = false := by
      rw [Bool.eq_false_iff]
      intro h
      exact hs (List.isPrefixOf_iff_prefix.1 h)
    simp [installFromFile.fname, hpre]

/-- C20 at the three spellings of `/a/b` and at a plain path. -/
theorem C20_file_name_normalised_witness :
    installFromFile.fname "file:a/b" = "/a/b" ∧
    installFromFile.fname "file:/a/b" = "/a/b" ∧
    installFromFile.fname "file:///a/b" = "/a/b" ∧
    installFromFile.fname "/home/u/calc.dapp" = "/home/u/calc.dapp" :=
  ⟨C20_file_name_normalised.1 0 "a/b" (by decide),
    C20_file_name_normalised.1 1 "a/b" (by decide),
    C20_file_name_normalised.1 3 "a/b" (by decide),
    C20_file_name_normalised.2.1 "/home/u/calc.dapp" (by decide)⟩

end DappsStore

namespace TxTable

/-! ## Theorems: the transaction table -/

/-- The first loop keeps the transactions of a displayable type, in order. -/
theorem collect_eq_filter (secondCurrency : String) (transactions : List TxDescription) :
    onTransactionsChanged.collect secondCurrency transactions =
      (transactions.filter displayableType).map (fun t => ⟨t, secondCurrency⟩) := by
  induction transactions with
  | nil => rfl
  | cons t ts ih =>
    obtain ⟨txId, txType, status⟩ := t
    cases txType with
    | none => simpa [onTransactionsChanged.collect, displayableType] using ih
    | some ty =>
      cases ty <;> simp [onTransactionsChanged.collect, displayableType, ih]

/-- The loop of the `Reset` case keeps the transactions that match no disabled
filter, in order. -/
theorem filterReset_eq_filter (env : Env) (st : State) (txs : List TxObject) :
    onTransactionsChanged.filterReset env st txs =
      txs.filter (fun tx => !matchesDisabledFilter env st tx) := by
  induction txs with
  | nil => rfl
  | cons tx txs ih =>
    simp only [onTransactionsChanged.filterReset, matchesDisabledFilter, List.filter_cons, ih]
    cases h1 : (!st._showInProgress && env.isInProgress tx) <;>
      cases h2 : (!st._showCompleted && env.isCompleted tx) <;>
      cases h3 : (!st._showCanceled && env.isCanceled tx) <;>
      cases h4 : (!st._showFailed && env.isFailed tx) <;> simp

/-- C21. After `onTransactionsChanged` with the action `Reset`, whatever the list
held before, the transaction list holds one `TxObject` for each incoming
transaction whose type is `Contract`, `PushTransaction`, `Simple` or
`DexSimpleSwap` and that matches no disabled status filter, and nothing else,
in the incoming order; with all four flags on every transaction of a
displayable type is kept.  The flags are left as they were and
`transactionsChanged` is emitted. -/
theorem C21_reset_holds_displayable_unfiltered (env : Env) (st : State)
    (transactions : List TxDescription) :
    (onTransactionsChanged env st .Reset transactions).1._transactionsList =
      ((transactions.filter displayableType).map
        (fun t => (⟨t, env.getRateCurrency⟩ : TxObject))).filter
        (fun tx => !matchesDisabledFilter env st tx) ∧
    (∀ tx : TxObject, tx ∈ (onTransactionsChanged env st .Reset transactions).1._transactionsList ↔
      tx.tx ∈ transactions ∧ tx.secondCurrency = env.getRateCurrency ∧
        displayableType tx.tx = true ∧ matchesDisabledFilter env st tx = false) ∧
    List.Sublist (onTransactionsChanged env st .Reset transactions).1._transactionsList
      (transactions.map (fun t => (⟨t, env.getRateCurrency⟩ : TxObject))) ∧
    (st._showInProgress = true → st._showCompleted = true → st._showCanceled = true →
      st._showFailed = true →
      (onTransactionsChanged env st .Reset transactions).1._transactionsList =
        (transactions.filter displayableType).map
          (fun t => (⟨t, env.getRateCurrency⟩ : TxObject))) ∧
    ((onTransactionsChanged env st .Reset transactions).1._showInProgress = st._showInProgress ∧
      (onTransactionsChanged env st .Reset transactions).1._showCompleted = st._showCompleted ∧
      (onTransactionsChanged env st .Reset transactions).1._showCanceled = st._showCanceled ∧
      (onTransactionsChanged env st .Reset transactions).1._showFailed = st._showFailed) ∧
    (onTransactionsChanged env st .Reset transactions).2 = [.transactionsChanged] := by
  have hlist : (onTransactionsChanged env st .Reset transactions).1._transactionsList =
      ((transactions.filter displayableType).map
        (fun t => (⟨t, env.getRateCurrency⟩ : TxObject))).filter
        (fun tx => !matchesDisabledFilter env st tx) := by
    simp only [onTransactionsChanged, TxObjectList.reset, collect_eq_filter,
      filterReset_eq_filter]
  refine ⟨hlist, ?_, ?_, ?_, ⟨rfl, rfl, rfl, rfl⟩, rfl⟩
  · intro tx
    rw [hlist]
    simp only [List.mem_filter, List.mem_map, Bool.not_eq_true']
    constructor
    · rintro ⟨⟨t, ⟨ht, hd⟩, rfl⟩, hm⟩
      exact ⟨ht, rfl, hd, hm⟩
    · rintro ⟨ht, hc, hd, hm⟩
      refine ⟨⟨tx.tx, ⟨ht, hd⟩, ?_⟩, hm⟩
      obtain ⟨t, c⟩ := tx
      simp only at hc
      rw [hc]
  · rw [hlist]
    exact (List.filter_sublist _).trans ((List.filter_sublist _).map _)
  · intro h1 h2 h3 h4
    rw [hlist]
    have hall : ∀ tx : TxObject, (!matchesDisabledFilter env st tx) = true := by
      intro tx
      simp [matchesDisabledFilter, h1, h2, h3, h4]
    simp only [hall, List.filter_true]

/-- C21 at five incoming transactions, with `showFailed` off and with all four
flags on. -/
theorem C21_reset_holds_displayable_unfiltered_witness :
    (onTransactionsChanged sampleEnv ⟨[⟨⟨9, some .Simple, 2⟩, "usd"⟩], true, true, true, false⟩
      .Reset sampleTransactions).1._transactionsList =
      [⟨⟨1, some .Simple, 2⟩, "usd"⟩, ⟨⟨5, some .DexSimpleSwap, 1⟩, "usd"⟩] ∧
    (onTransactionsChanged sampleEnv ⟨[], true, true, true, true⟩
      .Reset sampleTransactions).1._transactionsList =
      [⟨⟨1, some .Simple, 2⟩, "usd"⟩, ⟨⟨3, some .Contract, 4⟩, "usd"⟩,
        ⟨⟨5, some .DexSimpleSwap, 1⟩, "usd"⟩] :=
  ⟨(C21_reset_holds_displayable_unfiltered sampleEnv
      ⟨[⟨⟨9, some .Simple, 2⟩, "usd"⟩], true, true, true, false⟩ sampleTransactions).1.trans
      (by decide),
    ((C21_reset_holds_displayable_unfiltered sampleEnv ⟨[], true, true, true, true⟩
      sampleTransactions).2.2.2.1 rfl rfl rfl rfl).trans (by decide)⟩

end TxTable
